import Mathlib

/-
Shallow embedding of the ASKCOS MCTS retrosynthesis tree builder
(askcos/retrosynthetic/mcts/v2/tree_builder.py) and of the template
relevance prioritizer (makeit/prioritization/templates/relevance.py).

Python floats are idealized as rationals.  External collaborators
(template prioritizer model, pricer, chem historian, scscorer, rdkit
molecule parsing, template application, fast filter, and the numpy/scipy
numeric kernels sqrt/log/softmax) are supplied as function parameters in
a `Collab` structure, mirroring the dependency-injection boundary of the
source.  Everything in tree_builder.py itself is translated directly.
-/

namespace Askcos

/-- Attributes of a chemical node, as set by `create_chemical_node`
(tree_builder.py lines 542-579). -/
structure ChemData where
  asReactant : Nat
  asProduct : Nat
  estValue : ℚ
  explored : List Nat
  minDepth : Option Nat
  purchasePrice : Option ℚ
  solved : Bool
  templates : List (Nat × ℚ)
  terminal : Bool
  visitCount : Nat
  done : Bool
deriving DecidableEq, Repr

/-- Attributes of a reaction node, as set by `create_reaction_node`
(tree_builder.py lines 581-595). -/
structure RxnData where
  estValue : ℚ
  ffScore : ℚ
  solved : Bool
  templateScore : ℚ
  templates : List Nat
  visitCount : Nat
deriving DecidableEq, Repr

/-- A node of the search graph is either a chemical or a reaction
(the `type` attribute in the source). -/
inductive NodeData where
  | chem (d : ChemData)
  | rxn (d : RxnData)
deriving DecidableEq, Repr

/-- The networkx `DiGraph`: nodes keyed by smiles string with attribute
data, and a directed edge list.  Node and edge order is insertion order,
matching networkx iteration order. -/
structure Graph where
  nodes : List (String × NodeData)
  edges : List (String × String)
deriving DecidableEq, Repr

def lookupNode (g : Graph) (k : String) : Option NodeData :=
  (g.nodes.find? (fun p => p.1 == k)).map (fun p => p.2)

/-- `G.add_node(k, **data)`: replace the attributes if the node exists,
otherwise append a new node. -/
def setNode (g : Graph) (k : String) (d : NodeData) : Graph :=
  if g.nodes.any (fun p => p.1 == k) then
    ⟨g.nodes.map (fun p => if p.1 == k then (k, d) else p), g.edges⟩
  else
    ⟨g.nodes ++ [(k, d)], g.edges⟩

/-- In-place mutation of one node's attribute dict. -/
def updateNode (g : Graph) (k : String) (f : NodeData → NodeData) : Graph :=
  ⟨g.nodes.map (fun p => if p.1 == k then (p.1, f p.2) else p), g.edges⟩

def successors (g : Graph) (n : String) : List String :=
  (g.edges.filter (fun e => e.1 == n)).map (fun e => e.2)

def predecessors (g : Graph) (n : String) : List String :=
  (g.edges.filter (fun e => e.2 == n)).map (fun e => e.1)

def outDegree (g : Graph) (n : String) : Nat :=
  (successors g n).length

def inDegree (g : Graph) (n : String) : Nat :=
  (predecessors g n).length

/-- `G.add_edge(a, b)`: a no-op when the edge already exists (networkx
DiGraph has no parallel edges).  Both endpoints already exist as nodes at
every call site in tree_builder.py. -/
def addEdge (g : Graph) (a b : String) : Graph :=
  if (a, b) ∈ g.edges then g else ⟨g.nodes, g.edges ++ [(a, b)]⟩

def defaultChem : ChemData :=
  ⟨0, 0, 0, [], none, none, false, [], false, 0, false⟩

def defaultRxn : RxnData :=
  ⟨0, 0, false, 0, [], 0⟩

/-- Read a chemical node's attributes.  In Python a missing node raises
`KeyError`; all reachable call sites access existing chemical nodes. -/
def chemDataOf (t : Graph) (c : String) : ChemData :=
  match lookupNode t c with
  | some (NodeData.chem d) => d
  | _ => defaultChem

def rxnDataOf (t : Graph) (r : String) : RxnData :=
  match lookupNode t r with
  | some (NodeData.rxn d) => d
  | _ => defaultRxn

def chemDoneCached (t : Graph) (c : String) : Bool :=
  (chemDataOf t c).done

def chemSolvedCached (t : Graph) (c : String) : Bool :=
  (chemDataOf t c).solved

def chemTerminalCached (t : Graph) (c : String) : Bool :=
  (chemDataOf t c).terminal

def chemVisitsOf (t : Graph) (c : String) : Nat :=
  (chemDataOf t c).visitCount

def rxnSolvedCached (t : Graph) (r : String) : Bool :=
  (rxnDataOf t r).solved

/-- The solved flag carried by a node value (false on reaction nodes),
used to phrase frame lemmas about single-node tree updates. -/
def chemSolvedOf : NodeData → Bool
  | NodeData.chem d => d.solved
  | NodeData.rxn _ => false

/-- The solved flag carried by a node value (false on chemical nodes). -/
def rxnSolvedOf : NodeData → Bool
  | NodeData.chem _ => false
  | NodeData.rxn d => d.solved

/-- Lookup in the ordered template-index → relevance-probability mapping
(`self.tree.nodes[x]['templates'][k]`). -/
def tmplProb (l : List (Nat × ℚ)) (k : Nat) : ℚ :=
  ((l.find? (fun p => p.1 == k)).map (fun p => p.2)).getD 0

/-- The `MCTS` object state: the graph plus the bookkeeping attributes
mutated during a build (tree_builder.py lines 21-29). -/
structure MCTSState where
  tree : Graph
  target : String
  chemicals : List String
  reactions : List String
  iterations : Nat
  timeToSolve : ℚ
deriving DecidableEq, Repr

/-- The configuration surface parsed by `set_options`
(tree_builder.py lines 99-130). -/
structure Opts where
  templateMaxCount : Nat
  templateMaxCumProb : ℚ
  fastFilterThreshold : ℚ
  expansionTime : ℚ
  maxIterations : Option Nat
  maxChemicals : Option Nat
  maxReactions : Option Nat
  maxBranching : Nat
  maxDepth : Nat
  explorationWeight : ℚ
  returnFirst : Bool
  maxTrees : Option Nat
  bannedChemicals : List String
  bannedReactions : List String
  maxPpg : Option ℚ
  maxScscore : Option ℚ
  maxElements : Option (List (String × Nat))
  minHistory : Option (Nat × Nat)
  terminationLogic : List (String × String)
deriving DecidableEq, Repr

/-- External collaborators (spec section 6): template prioritizer,
pricer, chem historian, scscorer, rdkit element counting, template
application, fast filter, and the numpy numeric kernels used in the UCB
score.  All are injected, mirroring the source's constructor arguments
and library imports. -/
structure Collab where
  templatePredict : String → List (Nat × ℚ)
  priceLookup : String → Option ℚ
  histLookup : String → Nat × Nat
  scscore : String → ℚ
  elemCounts : String → Option (List (String × Nat))
  getPrecursors : String → Nat → List (List String)
  fastFilter : String → String → ℚ
  sqrtQ : ℚ → ℚ
  logQ : ℚ → ℚ

/-- `self.termination_logic.get(key, default)`. -/
def termLogicGet (logic : List (String × String)) (k dflt : String) : String :=
  match logic.find? (fun p => p.1 == k) with
  | some p => p.2
  | none => dflt

/-- Append a criterion result to the 'and' or 'or' bucket.  The source
indexes `results[logic]`, which only supports the keys 'and' and 'or'
(any other configured value would raise KeyError); we send non-'and'
values to the 'or' bucket. -/
def addCrit (logic : List (String × String)) (key dflt : String) (b : Bool)
    (acc : List Bool × List Bool) : List Bool × List Bool :=
  if termLogicGet logic key dflt == "and" then (acc.1 ++ [b], acc.2)
  else (acc.1, acc.2 ++ [b])

def elemCountGet (counts : List (String × Nat)) (k : String) : Nat :=
  ((counts.find? (fun p => p.1 == k)).map (fun p => p.2)).getD 0

/-- `is_terminal` (tree_builder.py lines 618-660).  `bool(ppg)` is false
for both `None` and a price of 0. -/
def isTerminal (opts : Opts) (collab : Collab) (smiles : String)
    (ppg : Option ℚ) (hist : Nat × Nat) : Bool :=
  let boolPpg : Bool := match ppg with | none => false | some q => decide (q ≠ 0)
  let acc : List Bool × List Bool := ([boolPpg], [])
  let acc :=
    match opts.maxPpg, ppg with
    | some m, some q => addCrit opts.terminationLogic "max_ppg" "and" (decide (q ≤ m)) acc
    | _, _ => acc
  let acc :=
    match opts.maxScscore with
    | some m => addCrit opts.terminationLogic "max_scscore" "or" (decide (collab.scscore smiles ≤ m)) acc
    | none => acc
  let acc :=
    match opts.maxElements with
    | some caps =>
      match collab.elemCounts smiles with
      | some counts =>
        addCrit opts.terminationLogic "max_elements" "or"
          (caps.all (fun p => decide (elemCountGet counts p.1 ≤ p.2))) acc
      | none => acc
    | none => acc
  let acc :=
    match opts.minHistory with
    | some mh =>
      addCrit opts.terminationLogic "min_history" "or"
        (decide (mh.1 ≤ hist.1) || decide (mh.2 ≤ hist.2)) acc
    | none => acc
  acc.1.all (fun b => b) || acc.2.any (fun b => b)

/-- `is_reaction_done` (tree_builder.py lines 355-361): the reaction has
at least one child and all child chemicals have a cached done flag. -/
def isReactionDone (t : Graph) (smiles : String) : Bool :=
  decide (0 < outDegree t smiles) && (successors t smiles).all (fun c => chemDoneCached t c)

/-- The recomputation performed by `is_chemical_done(smiles, update=True)`
(tree_builder.py lines 339-351): the elif chain over terminal flag,
template count, minimum depth, and branching/explored exhaustion. -/
def computeChemDone (opts : Opts) (t : Graph) (smiles : String) : Bool :=
  match lookupNode t smiles with
  | some (NodeData.chem d) =>
    if d.terminal then true
    else if d.templates.length == 0 then true
    else if (match d.minDepth with
             | some md => decide (opts.maxDepth ≤ md)
             | none => false) then true
    else if decide (opts.maxBranching ≤ outDegree t smiles)
            || d.explored.length == d.templates.length then
      (successors t smiles).all (fun r => isReactionDone t r)
    else false
  | _ => false

/-- `is_chemical_done(smiles, update=True)`: recompute the done flag and
store it on the node. -/
def isChemicalDoneUpdate (opts : Opts) (s : MCTSState) (smiles : String) : MCTSState :=
  let v := computeChemDone opts s.tree smiles
  { s with tree := updateNode s.tree smiles (fun nd =>
      match nd with
      | NodeData.chem d => NodeData.chem { d with done := v }
      | x => x) }

/-- `create_chemical_node` (tree_builder.py lines 542-579). -/
def createChemicalNode (opts : Opts) (collab : Collab) (s : MCTSState)
    (smiles : String) : MCTSState :=
  let templates := collab.templatePredict smiles
  let ppg := collab.priceLookup smiles
  let hist := collab.histLookup smiles
  let term := isTerminal opts collab smiles ppg hist
  let ev : ℚ := if term then 1 else 0
  let s :=
    { s with
      chemicals := s.chemicals ++ [smiles],
      tree := setNode s.tree smiles (NodeData.chem
        { asReactant := hist.1
          asProduct := hist.2
          estValue := ev
          explored := []
          minDepth := none
          purchasePrice := ppg
          solved := term
          templates := templates
          terminal := term
          visitCount := 1
          done := false }) }
  isChemicalDoneUpdate opts s smiles

/-- `create_reaction_node` (tree_builder.py lines 581-595). -/
def createReactionNode (s : MCTSState) (smiles : String) (template : Nat)
    (templateScore ffScore : ℚ) : MCTSState :=
  { s with
    reactions := s.reactions ++ [smiles],
    tree := setNode s.tree smiles (NodeData.rxn
      { estValue := 0
        ffScore := ffScore
        solved := false
        templateScore := templateScore
        templates := [template]
        visitCount := 1 }) }

/-- `_update_value` (tree_builder.py lines 597-616): add the sum of the
precursor children's values to the reaction and to its (unique) parent
chemical, then set both solved flags to
`rxn_solved or all(children solved)`.  The parent chemical's flag is
assigned, not or-ed. -/
def updateValue (s : MCTSState) (smiles : String) : MCTSState :=
  match lookupNode s.tree smiles with
  | some (NodeData.rxn rd) =>
    let kids := successors s.tree smiles
    let ev : ℚ := (kids.map (fun c => (chemDataOf s.tree c).estValue)).sum
    let solved := rd.solved || kids.all (fun c => chemSolvedCached s.tree c)
    let t1 := updateNode s.tree smiles (fun nd =>
      match nd with
      | NodeData.rxn r => NodeData.rxn { r with estValue := r.estValue + ev, solved := solved }
      | x => x)
    let t2 :=
      match (predecessors s.tree smiles).head? with
      | some p => updateNode t1 p (fun nd =>
          match nd with
          | NodeData.chem c => NodeData.chem { c with estValue := c.estValue + ev, solved := solved }
          | x => x)
      | none => t1
    { s with tree := t2 }
  | _ => s

/-- One step of the `_update` loop body (tree_builder.py lines 314-322):
`i` is the depth index, `chem` the chemical at that depth, `rxn?` its
parent reaction (`none` only at the root). -/
def updateStep (opts : Opts) (s : MCTSState) (i : Nat) (chem : String)
    (rxn? : Option String) : MCTSState :=
  let s := { s with tree := updateNode s.tree chem (fun nd =>
      match nd with
      | NodeData.chem d => NodeData.chem
          { d with
            visitCount := d.visitCount + 1,
            minDepth := some (match d.minDepth with | some m => min m i | none => i) }
      | x => x) }
  let s := isChemicalDoneUpdate opts s chem
  match rxn? with
  | some r =>
    let s := { s with tree := updateNode s.tree r (fun nd =>
        match nd with
        | NodeData.rxn d => NodeData.rxn { d with visitCount := d.visitCount + 1 }
        | x => x) }
    updateValue s r
  | none => s

/-- `_update` (tree_builder.py lines 295-322): walk the rollout path from
leaf to root (`zip_longest` of descending indices, the reversed chemical
path, and the reversed reaction path padded with one `None`). -/
def update (opts : Opts) (s : MCTSState) (chemPath rxnPath : List String) : MCTSState :=
  let n := chemPath.length
  let rxns : List (Option String) :=
    rxnPath.reverse.map some ++ List.replicate (n - rxnPath.length) none
  let triples := ((List.range n).reverse.zip chemPath.reverse).zip rxns
  triples.foldl (fun acc t => updateStep opts acc t.1.1 t.1.2 t.2) s

/-- The `_update` walk as an explicit fold over an arbitrary list of its
`zip_longest` triples (depth index, chemical, optional parent reaction). -/
def updateSteps (opts : Opts) (ts : List ((Nat × String) × Option String))
    (s : MCTSState) : MCTSState :=
  ts.foldl (fun acc t => updateStep opts acc t.1.1 t.1.2 t.2) s

/-- One saturation step for reachability: add every edge target whose
source is already reached. -/
def reachStep (g : Graph) (cur : List String) : List String :=
  cur ++ (g.edges.filter (fun e => cur.contains e.1 && !cur.contains e.2)).map (fun e => e.2)

def reachN (g : Graph) : Nat → List String → List String
  | 0, cur => cur
  | n + 1, cur => reachN g n (reachStep g cur)

/-- `nx.has_path(G, a, b)`: every path in the graph has at most
`edges.length` edges, so that many saturation steps suffice. -/
def hasPathB (g : Graph) (a b : String) : Bool :=
  (reachN g g.edges.length [a]).contains b

/-- `'.'.join(reactant_list)`. -/
def joinDot : List String → String
  | [] => ""
  | [x] => x
  | x :: y :: rest => x ++ "." ++ joinDot (y :: rest)

/-- `reactant_smiles + '>>' + target` (tree_builder.py line 499). -/
def reactionSmilesOf (reactantList : List String) (target : String) : String :=
  joinDot reactantList ++ ">>" ++ target

/-- The inner `for reactant in reactant_list` loop of
`_process_precursors` (tree_builder.py lines 514-522).  Returns the state
together with `true` when the loop ran to completion (so the `for/else`
clause fires) and `false` when it hit the cycle-detection `break`.
Chemical nodes created for earlier reactants remain in the state in the
`break` case. -/
def processReactants (opts : Opts) (collab : Collab) (s : MCTSState)
    (target : String) (path : List String) : List String → MCTSState × Bool
  | [] => (s, true)
  | reactant :: rest =>
    if s.chemicals.contains reactant then
      if path.contains reactant || hasPathB s.tree reactant target then (s, false)
      else processReactants opts collab s target path rest
    else
      processReactants opts collab (createChemicalNode opts collab s reactant) target path rest

/-- The attribute mutation applied when a candidate precursor set maps
to an already-registered reaction (tree_builder.py lines 528-530):
append the contributing template id (without deduplication) and raise
`template_score` to the max. -/
def mergeRxnData (template : Nat) (templateScore : ℚ) : NodeData → NodeData
  | NodeData.rxn r => NodeData.rxn
      { r with
        templates := r.templates ++ [template],
        templateScore := max r.templateScore templateScore }
  | x => x

/-- The `for/else` else-clause of `_process_precursors` (tree_builder.py
lines 523-540), reached when the reactant loop completes without a
cycle break: merge into an existing reaction node or create a new one,
add the edges `target → reaction → each precursor`, then run
`_update_value` on the reaction. -/
def registerReaction (_opts : Opts) (collab : Collab) (s' : MCTSState)
    (target : String) (template : Nat) (reactantList : List String) : MCTSState :=
  let reactantSmiles := joinDot reactantList
  let reactionSmiles := reactantSmiles ++ ">>" ++ target
  let ffScore := collab.fastFilter reactantSmiles target
  let templateScore := tmplProb (chemDataOf s'.tree target).templates template
  let s'' :=
    if s'.reactions.contains reactionSmiles then
      { s' with tree := updateNode s'.tree reactionSmiles (mergeRxnData template templateScore) }
    else createReactionNode s' reactionSmiles template templateScore ffScore
  let s'' := { s'' with tree := addEdge s''.tree target reactionSmiles }
  let t := reactantList.foldl (fun g r => addEdge g reactionSmiles r) s''.tree
  let s'' := { s'' with tree := t }
  updateValue s'' reactionSmiles

/-- Processing of one candidate precursor set: the body of the outer
`for reactant_list in precursors` loop of `_process_precursors`
(tree_builder.py lines 497-540). -/
def processOneSet (opts : Opts) (collab : Collab) (s : MCTSState)
    (target : String) (template : Nat) (path : List String)
    (reactantList : List String) : MCTSState :=
  let reactantSmiles := joinDot reactantList
  let reactionSmiles := reactantSmiles ++ ">>" ++ target
  let ffScore := collab.fastFilter reactantSmiles target
  if ffScore < opts.fastFilterThreshold then s
  else if opts.bannedReactions.contains reactionSmiles then s
  else if reactantList.any (fun r => opts.bannedChemicals.contains r) then s
  else
    match processReactants opts collab s target path reactantList with
    | (s', false) => s'
    | (s', true) => registerReaction opts collab s' target template reactantList

/-- `_process_precursors` (tree_builder.py lines 489-540). -/
def processPrecursors (opts : Opts) (collab : Collab) (s : MCTSState)
    (target : String) (template : Nat) (precursors : List (List String))
    (path : List String) : MCTSState :=
  precursors.foldl (fun acc rl => processOneSet opts collab acc target template path rl) s

/-- `_expand` (tree_builder.py lines 284-293). -/
def expand (opts : Opts) (collab : Collab) (s : MCTSState)
    (chemPath : List String) (template : Nat) : MCTSState :=
  match chemPath.getLast? with
  | none => s
  | some leaf =>
    let explored := (chemDataOf s.tree leaf).explored
    if explored.contains template then s
    else
      let s := { s with tree := updateNode s.tree leaf (fun nd =>
          match nd with
          | NodeData.chem d => NodeData.chem { d with explored := d.explored ++ [template] }
          | x => x) }
      let precursors := collab.getPrecursors leaf template
      processPrecursors opts collab s leaf template precursors chemPath

/-- An exploration option produced by `ucb`: either descend into an
already-explored reaction (a reaction smiles string in the source) or
apply a new template (an integer template index). -/
inductive Task where
  | onRxn (s : String)
  | onTmpl (i : Nat)
deriving DecidableEq, Repr

/-- Stable descending insertion by a rational key: insert `x` before the
first element with a strictly smaller key. -/
def insertDesc (key : α → ℚ) (x : α) : List α → List α
  | [] => [x]
  | y :: ys => if key y < key x then x :: y :: ys else y :: insertDesc key x ys

/-- Python's stable `sort(key=..., reverse=True)`. -/
def sortDescBy (key : α → ℚ) (l : List α) : List α :=
  l.foldl (fun acc x => insertDesc key x acc) []

/-- Stable ascending insertion by a rational key. -/
def insertAsc (key : α → ℚ) (x : α) : List α → List α
  | [] => [x]
  | y :: ys => if key x < key y then x :: y :: ys else y :: insertAsc key x ys

/-- Python's stable `sorted(key=...)`. -/
def sortAscBy (key : α → ℚ) (l : List α) : List α :=
  l.foldl (fun acc x => insertAsc key x acc) []

/-- `ucb` (tree_builder.py lines 416-467).  The numpy `sqrt`/`log`
kernels come from `Collab`.  Reaction children that are done, share a
successor with the current path, or are in `invalid_options` are
skipped; at most one unexplored-template option (the first unexplored
template in relevance order) is added when branching allows or the node
is the root. -/
def ucbList (opts : Opts) (collab : Collab) (s : MCTSState) (node : String)
    (path : List String) (invalid : List String) : List (ℚ × Task) :=
  let templates := (chemDataOf s.tree node).templates
  let explored := (chemDataOf s.tree node).explored
  let productVisits := (chemDataOf s.tree node).visitCount
  let rxnOptions :=
    ((successors s.tree node).filter (fun r =>
        !isReactionDone s.tree r
        && !(successors s.tree r).any (fun c => path.contains c)
        && !invalid.contains r)).map (fun r =>
      let rd := rxnDataOf s.tree r
      let templateProbability := (rd.templates.map (fun t => tmplProb templates t)).sum
      let qSA := templateProbability * rd.estValue / (rd.visitCount : ℚ)
      let uSA := collab.sqrtQ (collab.logQ (productVisits : ℚ) / (rd.visitCount : ℚ))
      (qSA + opts.explorationWeight * uSA, Task.onRxn r))
  let tmplOptions :=
    if decide (outDegree s.tree node < opts.maxBranching) || node == s.target then
      match templates.find? (fun p => !explored.contains p.1) with
      | some p =>
        [(p.2 + opts.explorationWeight * collab.sqrtQ (collab.logQ (productVisits : ℚ)),
          Task.onTmpl p.1)]
      | none => []
    else []
  sortDescBy (fun x => x.1) (rxnOptions ++ tmplOptions)

/-- Python `min(iterable, key=...)` keeping the first minimal element. -/
def minByVisitAux (t : Graph) (best : String) : List String → String
  | [] => best
  | c :: rest =>
    if chemVisitsOf t c < chemVisitsOf t best then minByVisitAux t c rest
    else minByVisitAux t best rest

/-- `min(..., key=visit_count, default=None)` used for descending into
an explored reaction (tree_builder.py lines 396-402). -/
def minByVisit (t : Graph) : List String → Option String
  | [] => none
  | c :: rest => some (minByVisitAux t c rest)

/-- The precursor candidates considered when descending into an explored
reaction (tree_builder.py lines 396-402): successors of the reaction
that are not done (cached flag) and not in `invalid_options`. -/
def descendCands (s : MCTSState) (task : String) (invalid : List String) : List String :=
  (successors s.tree task).filter (fun c =>
    !chemDoneCached s.tree c && !invalid.contains c)

/-- Outcome of one iteration of the `_select` while loop. -/
inductive SelOut where
  | more (chemPath rxnPath invalid : List String)
  | found (chemPath rxnPath : List String) (template : Nat)
  | failed
deriving DecidableEq, Repr

/-- One iteration of the `_select` loop body (tree_builder.py lines
377-413).  `failed` models the uncaught IndexError raised when
backtracking pops an empty reaction path (the defensive case noted in
the spec). -/
def selectStep (opts : Opts) (collab : Collab) (s : MCTSState)
    (chemPath rxnPath invalid : List String) : SelOut :=
  match chemPath.getLast? with
  | none => SelOut.failed
  | some leaf =>
    match (ucbList opts collab s leaf chemPath invalid).head? with
    | none =>
      match rxnPath with
      | [] => SelOut.failed
      | _ => SelOut.more chemPath.dropLast rxnPath.dropLast (leaf :: invalid)
    | some (_, Task.onRxn task) =>
      match minByVisit s.tree (descendCands s task invalid) with
      | none => SelOut.more chemPath rxnPath (task :: invalid)
      | some precursor =>
        SelOut.more (chemPath ++ [precursor]) (rxnPath ++ [task]) invalid
    | some (_, Task.onTmpl i) => SelOut.found chemPath rxnPath i

/-- The `_select` while loop, fuel-bounded (the Python loop terminates
because each iteration either descends, consumes an option, or fails). -/
def selectLoop (opts : Opts) (collab : Collab) (s : MCTSState) :
    Nat → List String → List String → List String →
    Option (List String × List String × Nat)
  | 0, _, _, _ => none
  | fuel + 1, cp, rp, inv =>
    match selectStep opts collab s cp rp inv with
    | SelOut.failed => none
    | SelOut.found c r t => some (c, r, t)
    | SelOut.more c r i => selectLoop opts collab s fuel c r i

/-- `_select` (tree_builder.py lines 363-414). -/
def select (opts : Opts) (collab : Collab) (s : MCTSState) (fuel : Nat) :
    Option (List String × List String × Nat) :=
  selectLoop opts collab s fuel [s.target] [] []

/-- `_rollout` (tree_builder.py lines 276-282), with `none` when
selection fails (Python would raise). -/
def rolloutFn (opts : Opts) (collab : Collab) (fuel : Nat) (s : MCTSState) : MCTSState :=
  match select opts collab s fuel with
  | some (cp, rp, t) => update opts (expand opts collab s cp t) cp rp
  | none => s

/-- The `done` property (tree_builder.py lines 87-97):
`is_chemical_done(target)` reads the cached flag. -/
def doneB (opts : Opts) (s : MCTSState) : Bool :=
  chemDoneCached s.tree s.target
  || (match opts.maxIterations with | some m => decide (m ≤ s.iterations) | none => false)
  || (match opts.maxChemicals with | some m => decide (m ≤ s.chemicals.length) | none => false)
  || (match opts.maxReactions with | some m => decide (m ≤ s.reactions.length) | none => false)

/-- `_initialize` (tree_builder.py lines 266-274): create the root
chemical node, then force its terminal/done/solved flags to false
regardless of its own terminal evaluation. -/
def initTree (opts : Opts) (collab : Collab) (s : MCTSState) (target : String) : MCTSState :=
  let s := { s with target := target }
  let s := createChemicalNode opts collab s target
  { s with tree := updateNode s.tree target (fun nd =>
      match nd with
      | NodeData.chem d => NodeData.chem { d with terminal := false, done := false, solved := false }
      | x => x) }

/-- `clear` (tree_builder.py lines 246-252): empty the graph and the
chemicals/reactions lists.  `iterations` and `time_to_solve` are not
touched. -/
def clear (s : MCTSState) : MCTSState :=
  { s with tree := ⟨[], []⟩, chemicals := [], reactions := [] }

/-- The `build_tree` while loop (tree_builder.py lines 211-226), with
the wall clock abstracted to a fuel bound (one rollout per time unit)
and the rollout body abstracted to `step`.  Returns the final state and
the number of rollouts performed.  `time_to_solve` is set to a nonzero
marker the first time the target is solved; with `return_first` the loop
then breaks. -/
def buildLoop (opts : Opts) (step : MCTSState → MCTSState) :
    Nat → MCTSState → MCTSState × Nat
  | 0, s => (s, 0)
  | fuel + 1, s =>
    if doneB opts s then (s, 0)
    else
      let s1 := step s
      let s2 := { s1 with iterations := s1.iterations + 1 }
      if s2.timeToSolve == 0 && chemSolvedCached s2.tree s2.target then
        let s3 := { s2 with timeToSolve := 1 }
        if opts.returnFirst then (s3, 1)
        else
          let res := buildLoop opts step fuel s3
          (res.1, res.2 + 1)
      else
        let res := buildLoop opts step fuel s2
        (res.1, res.2 + 1)

/-- `build_tree` (tree_builder.py lines 198-228): set options (already
bound in `opts`), initialize with the target, then loop. -/
def buildTree (opts : Opts) (collab : Collab) (step : MCTSState → MCTSState)
    (fuel : Nat) (s : MCTSState) (target : String) : MCTSState × Nat :=
  buildLoop opts step fuel (initTree opts collab s target)

/-- Fresh node name supply standing in for
`nx.utils.generate_unique_node()` (random uuid4 strings in networkx). -/
def mkUuid (n : Nat) : String :=
  "uuid-" ++ toString n

def nodeDataOf (t : Graph) (n : String) : NodeData :=
  (lookupNode t n).getD (NodeData.chem defaultChem)

/-- `itertools.product(*lists)`: rightmost factor varies fastest. -/
def productL : List (List α) → List (List α)
  | [] => [[]]
  | l :: ls => l.flatMap (fun x => (productL ls).map (fun c => x :: c))

/-- `nx.union_all`: the graphs have disjoint (fresh-uuid) node sets. -/
def unionAll (gs : List Graph) : Graph :=
  ⟨(gs.map Graph.nodes).flatten, (gs.map Graph.edges).flatten⟩

mutual

/-- `get_chem_paths` inside `get_paths` (tree_builder.py lines 724-738),
fuel-bounded; threads a counter for fresh node names. -/
def getChemPaths (t : Graph) (maxDepth : Option Nat) :
    Nat → String → String → Nat → Nat → List Graph × Nat
  | 0, _, _, _, ctr => ([], ctr)
  | fuel + 1, node, uuid, depth, ctr =>
    if outDegree t node == 0
       || (match maxDepth with | some md => decide (md ≤ depth) | none => false) then
      ([⟨[(uuid, nodeDataOf t node)], []⟩], ctr)
    else
      (successors t node).foldl (fun acc rxn =>
        let rxnUuid := mkUuid acc.2
        let sub := getRxnPaths t maxDepth fuel rxn rxnUuid (depth + 1) (acc.2 + 1)
        (acc.1 ++ sub.1.map (fun g => addEdge (setNode g uuid (nodeDataOf t node)) uuid rxnUuid),
         sub.2))
        ([], ctr)

/-- `get_rxn_paths` inside `get_paths` (tree_builder.py lines 740-750):
fresh names for each child, cartesian product of child path lists, union
of each combination, then the reaction node and its edges. -/
def getRxnPaths (t : Graph) (maxDepth : Option Nat) :
    Nat → String → String → Nat → Nat → List Graph × Nat
  | 0, _, _, _, ctr => ([], ctr)
  | fuel + 1, node, uuid, depth, ctr =>
    let children := successors t node
    let cUuids := children.enum.map (fun p => (p.2, mkUuid (ctr + p.1)))
    let ctr1 := ctr + children.length
    let folded := cUuids.foldl (fun acc cu =>
      let sub := getChemPaths t maxDepth fuel cu.1 cu.2 depth acc.2
      (acc.1 ++ [sub.1], sub.2)) (([] : List (List Graph)), ctr1)
    let combos := productL folded.1
    (combos.map (fun combo =>
      let g := setNode (unionAll combo) uuid (nodeDataOf t node)
      cUuids.foldl (fun h cu => addEdge h uuid cu.2) g),
     folded.2)

end

/-- The consumer loop of `get_paths` (tree_builder.py lines 752-759):
stop at `max_trees` accepted paths, keep a path when there is no
validation function or it validates. -/
def takeValidated (maxTrees : Option Nat) (validate : Option (Graph → Bool)) :
    List Graph → Nat → List Graph
  | [], _ => []
  | p :: ps, n =>
    if (match maxTrees with | some m => decide (m ≤ n) | none => false) then []
    else
      match validate with
      | some f =>
        if f p then p :: takeValidated maxTrees validate ps (n + 1)
        else takeValidated maxTrees validate ps n
      | none => p :: takeValidated maxTrees validate ps (n + 1)

/-- `get_paths` (tree_builder.py lines 718-759) as a list. -/
def getPathsList (t : Graph) (root : String) (maxDepth maxTrees : Option Nat)
    (validate : Option (Graph → Bool)) (fuel : Nat) : List Graph :=
  takeValidated maxTrees validate ((getChemPaths t maxDepth fuel root (mkUuid 0) 0 1).1) 0

/-- The `terminal` attribute read by `_validate_path`.  Reaction nodes
carry no `terminal` key (Python would raise KeyError); reachable trees
only have chemical leaves. -/
def terminalFlag : NodeData → Bool
  | NodeData.chem d => d.terminal
  | NodeData.rxn _ => false

/-- `_validate_path` inside `enumerate_paths` (tree_builder.py lines
668-671): all leaves (out-degree zero) are terminal. -/
def validatePath (g : Graph) : Bool :=
  (g.nodes.filter (fun nd => outDegree g nd.1 == 0)).all (fun nd => terminalFlag nd.2)

def isRxnNode : NodeData → Bool
  | NodeData.rxn _ => true
  | NodeData.chem _ => false

/-- `number_of_starting_materials` (tree_builder.py lines 767-768). -/
def numberOfStartingMaterials (g : Graph) : Nat :=
  (g.nodes.filter (fun nd => outDegree g nd.1 == 0)).length

/-- Longest path starting at a node, for `nx.dag_longest_path`
(ties resolved to the first-found path; only used as a sorting key). -/
def longestPathFrom (t : Graph) : Nat → String → List String
  | 0, v => [v]
  | fuel + 1, v =>
    let best := (successors t v).foldl (fun acc c =>
      let p := longestPathFrom t fuel c
      match acc with
      | none => some p
      | some b => if b.length < p.length then some p else some b) none
    match best with
    | none => [v]
    | some p => v :: p

/-- `nx.dag_longest_path` over the whole graph. -/
def dagLongestPath (t : Graph) : List String :=
  t.nodes.foldl (fun acc nd =>
    let p := longestPathFrom t t.nodes.length nd.1
    if acc.length < p.length then p else acc) []

/-- `number_of_reactions` (tree_builder.py lines 770-771). -/
def numberOfReactions (g : Graph) : Nat :=
  ((dagLongestPath g).filter (fun v =>
    match lookupNode g v with
    | some d => isRxnNode d
    | none => false)).length

/-- `overall_plausibility` (tree_builder.py lines 773-774): product of
`ff_score` over the reaction nodes (`np.prod` of an empty list is 1). -/
def overallPlausibility (g : Graph) : ℚ :=
  ((g.nodes.filter (fun nd => isRxnNode nd.2)).map (fun nd =>
    match nd.2 with
    | NodeData.rxn d => d.ffScore
    | NodeData.chem _ => 0)).prod

/-- `sort_paths` (tree_builder.py lines 762-785); the unrecognized-metric
branch raises `ValueError` with a message naming the value. -/
def sortPaths (paths : List Graph) (metric : String) : Except String (List Graph) :=
  if metric == "plausibility" then
    Except.ok (sortDescBy overallPlausibility paths)
  else if metric == "number_of_starting_materials" then
    Except.ok (sortAscBy (fun g => (numberOfStartingMaterials g : ℚ)) paths)
  else if metric == "number_of_reactions" then
    Except.ok (sortAscBy (fun g => (numberOfReactions g : ℚ)) paths)
  else
    Except.error ("Need something to sort by! Invalid option provided: " ++ metric)

/-- Output of the `path_format` dispatch in `enumerate_paths`. -/
inductive PathsOut (β : Type) where
  | graphOut (l : List Graph)
  | jsonOut (l : List β)
deriving DecidableEq

/-- The `path_format` dispatch of `enumerate_paths` (tree_builder.py
lines 687-695).  `jsonConv` stands for the `nx.tree_data` +
`translate_json` serialization of lines 690-693; the unrecognized-format
branch raises `ValueError` with a message naming the value. -/
def formatPathsDispatch (jsonConv : List Graph → List β) (fmt : String)
    (paths : List Graph) : Except String (PathsOut β) :=
  if fmt == "graph" then Except.ok (PathsOut.graphOut paths)
  else if fmt == "json" then Except.ok (PathsOut.jsonOut (jsonConv paths))
  else Except.error ("Unrecognized format type " ++ fmt)

/-- Stable ascending argsort: `np.argsort(-scores)[:max]` sorts indices
by descending score. -/
def argsortDesc (scores : List ℚ) : List Nat :=
  sortAscBy (fun i => -(scores.getD i 0)) (List.range scores.length)

def cumsumFrom (acc : ℚ) : List ℚ → List ℚ
  | [] => []
  | x :: xs => (acc + x) :: cumsumFrom (acc + x) xs

/-- `np.cumsum`. -/
def cumsumL (l : List ℚ) : List ℚ :=
  cumsumFrom 0 l

/-- `np.argmax` on a boolean array: index of the first `True`, and 0
when every entry is `False` (the numpy all-false convention). -/
def npArgmaxBool (l : List Bool) : Nat :=
  match l.findIdx? (fun b => b) with
  | some i => i
  | none => 0

/-- The indices produced by `RelevanceTemplatePrioritizer.predict`
before truncation: `np.argsort(-scores)[:max_num_templates]`
(relevance.py line 73).  `modelScores` is the raw model output. -/
def predictIndices (modelScores : List ℚ) (maxNum : Nat) : List Nat :=
  (argsortDesc modelScores).take maxNum

/-- `scores[indices]` (relevance.py line 74). -/
def predictScoresSel (modelScores : List ℚ) (maxNum : Nat) : List ℚ :=
  (predictIndices modelScores maxNum).map (fun i => modelScores.getD i 0)

/-- `RelevanceTemplatePrioritizer.predict` (relevance.py lines 71-76)
after the model evaluation: `softmaxFn` stands for
`scipy.special.softmax` (nonnegative outputs summing to 1 on nonempty
input); `truncate = np.argmax(np.cumsum(scores) > max_cum_prob)` and both
arrays are cut at `truncate`. -/
def predictCore (softmaxFn : List ℚ → List ℚ) (modelScores : List ℚ)
    (maxNum : Nat) (maxCumProb : ℚ) : List ℚ × List Nat :=
  let scores := softmaxFn (predictScoresSel modelScores maxNum)
  let truncate := npArgmaxBool ((cumsumL scores).map (fun x => decide (maxCumProb < x)))
  (scores.take truncate, (predictIndices modelScores maxNum).take truncate)

/-- A smiles string free of the `>` character.  Canonical molecule
smiles never contain `>`; reaction smiles always do (they contain the
`>>` separator). -/
def gtFree (s : String) : Bool :=
  s.data.all (fun c => !(c == '>'))

/-- The suffix after the first `>>` separator. -/
def afterSep : List Char → List Char
  | [] => []
  | c :: rest =>
    if c = '>' then
      match rest with
      | c2 :: rest2 => if c2 = '>' then rest2 else afterSep rest
      | [] => []
    else afterSep rest

/-- The product encoded in a reaction smiles `reactants>>product`. -/
def productOf (s : String) : String :=
  ⟨afterSep s.data⟩

/-- The reaction-node structural invariant of the claim: every
registered reaction smiles has `>` in it, exactly the encoded product as
parent, and at least one precursor child. -/
def RxnParentChildInv (s : MCTSState) : Prop :=
  ∀ r ∈ s.reactions,
    gtFree r = false
    ∧ predecessors s.tree r = [productOf r]
    ∧ 1 ≤ outDegree s.tree r

/-- Well-formedness of edge targets: every edge points into a registered
chemical or a registered reaction, and all registered chemicals are
molecule smiles (no `>`). -/
def EdgeTargetsWf (s : MCTSState) : Prop :=
  (∀ e ∈ s.tree.edges, e.2 ∈ s.chemicals ∨ e.2 ∈ s.reactions)
  ∧ ∀ c ∈ s.chemicals, gtFree c = true

/-- Modelled from the spec: the descent rule as the claim words it —
the lowest-visit-count precursor among the reaction's children that are
not done and not already on the current root-to-leaf chemical path.
Defined for comparison with the code's rule in `selectStep`, which
filters on the invalid set instead of the path. -/
def specDescendChoice (t : Graph) (task : String) (path : List String) : Option String :=
  minByVisit t ((successors t task).filter (fun c =>
    !chemDoneCached t c && !path.contains c))

/-- The `set_options` defaults (tree_builder.py lines 99-130). -/
def baseOpts : Opts :=
  { templateMaxCount := 100
    templateMaxCumProb := mkRat 199 200
    fastFilterThreshold := mkRat 3 4
    expansionTime := 30
    maxIterations := none
    maxChemicals := none
    maxReactions := none
    maxBranching := 25
    maxDepth := 10
    explorationWeight := 1
    returnFirst := false
    maxTrees := none
    bannedChemicals := []
    bannedReactions := []
    maxPpg := none
    maxScscore := none
    maxElements := none
    minHistory := none
    terminationLogic := [] }

/-- A concrete deterministic collaborator bundle for fixtures. -/
def baseCollab : Collab :=
  { templatePredict := fun _ => []
    priceLookup := fun _ => none
    histLookup := fun _ => (0, 0)
    scscore := fun _ => 0
    elemCounts := fun _ => none
    getPrecursors := fun _ _ => []
    fastFilter := fun _ _ => 1
    sqrtQ := fun _ => 0
    logQ := fun _ => 0 }

def emptyState : MCTSState :=
  ⟨⟨[], []⟩, "", [], [], 0, 0⟩

/-- Fixture for the selection claim: the root `CCO` has one explored
reaction with precursors `CC` (1 visit, leads only to a done reaction)
and `CO` (5 visits, has an unexplored template).  `max_branching = 1` so
no unexplored-template option competes at `CCO` or `CC`. -/
def st2 : MCTSState :=
  { tree :=
      ⟨[("CCO", NodeData.chem
          { asReactant := 0, asProduct := 0, estValue := 1, explored := [0],
            minDepth := some 0, purchasePrice := none, solved := false,
            templates := [(0, mkRat 1 2)], terminal := false, visitCount := 2, done := false }),
        ("CC.CO>>CCO", NodeData.rxn
          { estValue := 1, ffScore := mkRat 9 10, solved := false, templateScore := mkRat 1 2,
            templates := [0], visitCount := 1 }),
        ("CC", NodeData.chem
          { asReactant := 0, asProduct := 0, estValue := 0, explored := [1],
            minDepth := some 1, purchasePrice := none, solved := false,
            templates := [(1, mkRat 1 2)], terminal := false, visitCount := 1, done := false }),
        ("CO", NodeData.chem
          { asReactant := 0, asProduct := 0, estValue := 0, explored := [],
            minDepth := some 1, purchasePrice := none, solved := false,
            templates := [(2, mkRat 1 2)], terminal := false, visitCount := 5, done := false }),
        ("C>>CC", NodeData.rxn
          { estValue := 1, ffScore := mkRat 9 10, solved := true, templateScore := mkRat 1 2,
            templates := [1], visitCount := 1 }),
        ("C", NodeData.chem
          { asReactant := 1, asProduct := 1, estValue := 1, explored := [],
            minDepth := some 2, purchasePrice := some 1, solved := true,
            templates := [], terminal := true, visitCount := 1, done := true })],
       [("CCO", "CC.CO>>CCO"), ("CC.CO>>CCO", "CC"), ("CC.CO>>CCO", "CO"),
        ("CC", "C>>CC"), ("C>>CC", "C")]⟩
    target := "CCO"
    chemicals := ["CCO", "CC", "CO", "C"]
    reactions := ["CC.CO>>CCO", "C>>CC"]
    iterations := 3
    timeToSolve := 0 }

def opts2 : Opts :=
  { baseOpts with maxBranching := 1 }

/-- Fixture for the backpropagation claim: the root `CCO` was marked
solved through the solved reaction `CC>>CCO`; the sibling reaction
`CO>>CCO` is unsolved because `CO` is unsolved. -/
def stC1 : MCTSState :=
  { tree :=
      ⟨[("CCO", NodeData.chem
          { asReactant := 0, asProduct := 0, estValue := 2, explored := [0],
            minDepth := some 0, purchasePrice := none, solved := true,
            templates := [(0, mkRat 1 2)], terminal := false, visitCount := 3, done := false }),
        ("CC>>CCO", NodeData.rxn
          { estValue := 1, ffScore := mkRat 9 10, solved := true, templateScore := mkRat 1 2,
            templates := [0], visitCount := 1 }),
        ("CC", NodeData.chem
          { asReactant := 1, asProduct := 1, estValue := 1, explored := [],
            minDepth := some 1, purchasePrice := some 1, solved := true,
            templates := [], terminal := true, visitCount := 1, done := true }),
        ("CO>>CCO", NodeData.rxn
          { estValue := 0, ffScore := mkRat 4 5, solved := false, templateScore := mkRat 1 2,
            templates := [0], visitCount := 1 }),
        ("CO", NodeData.chem
          { asReactant := 0, asProduct := 0, estValue := 0, explored := [],
            minDepth := some 1, purchasePrice := none, solved := false,
            templates := [(3, mkRat 1 2)], terminal := false, visitCount := 1, done := false })],
       [("CCO", "CC>>CCO"), ("CC>>CCO", "CC"), ("CCO", "CO>>CCO"), ("CO>>CCO", "CO")]⟩
    target := "CCO"
    chemicals := ["CCO", "CC", "CO"]
    reactions := ["CC>>CCO", "CO>>CCO"]
    iterations := 2
    timeToSolve := 1 }

/-- The reaction data of `CO>>CCO` in `stC1`, named for the witness. -/
def rdC1 : RxnData :=
  { estValue := 0, ffScore := mkRat 4 5, solved := false, templateScore := mkRat 1 2,
    templates := [0], visitCount := 1 }

/-- The chemical data of `CCO` in `stC1`, named for the witness. -/
def pdC1 : ChemData :=
  { asReactant := 0, asProduct := 0, estValue := 2, explored := [0],
    minDepth := some 0, purchasePrice := none, solved := true,
    templates := [(0, mkRat 1 2)], terminal := false, visitCount := 3, done := false }

/-- Fixture for the cycle-abandonment claim: expanding leaf `CCO` with a
candidate set `[CC, CO]` where `CC` is new and `CO` is an existing
chemical lying on the current path. -/
def st4 : MCTSState :=
  { tree :=
      ⟨[("CO", NodeData.chem
          { asReactant := 0, asProduct := 0, estValue := 0, explored := [1],
            minDepth := some 0, purchasePrice := none, solved := false,
            templates := [(1, mkRat 1 2)], terminal := false, visitCount := 2, done := false }),
        ("CCO", NodeData.chem
          { asReactant := 0, asProduct := 0, estValue := 0, explored := [],
            minDepth := some 1, purchasePrice := none, solved := false,
            templates := [(0, mkRat 1 2)], terminal := false, visitCount := 1, done := false })],
       []⟩
    target := "CO"
    chemicals := ["CO", "CCO"]
    reactions := []
    iterations := 1
    timeToSolve := 0 }

def opts5 : Opts :=
  { baseOpts with maxPpg := some 100 }

/-- Collaborators under which every chemical is purchasable at price 1
(below the cap) and offers one template. -/
def collab5 : Collab :=
  { baseCollab with
    priceLookup := fun _ => some 1
    templatePredict := fun _ => [(0, mkRat 1 2)] }

/-- Fixture graph for the done-state claim: `X` has both templates
explored and its single reaction child is done. -/
def t3 : Graph :=
  ⟨[("X", NodeData.chem
      { asReactant := 0, asProduct := 0, estValue := 0, explored := [0, 1],
        minDepth := some 1, purchasePrice := none, solved := false,
        templates := [(0, mkRat 1 2), (1, mkRat 1 4)], terminal := false, visitCount := 2, done := false }),
    ("Y>>X", NodeData.rxn
      { estValue := 1, ffScore := mkRat 9 10, solved := true, templateScore := mkRat 1 2,
        templates := [0], visitCount := 1 }),
    ("Y", NodeData.chem
      { asReactant := 1, asProduct := 0, estValue := 1, explored := [],
        minDepth := some 2, purchasePrice := some 1, solved := true,
        templates := [], terminal := true, visitCount := 1, done := true })],
   [("X", "Y>>X"), ("Y>>X", "Y")]⟩

/-- The chemical data of `X` in `t3`, named for the witness. -/
def d3 : ChemData :=
  { asReactant := 0, asProduct := 0, estValue := 0, explored := [0, 1],
    minDepth := some 1, purchasePrice := none, solved := false,
    templates := [(0, mkRat 1 2), (1, mkRat 1 4)], terminal := false, visitCount := 2, done := false }

def c6data : ChemData :=
  { asReactant := 2, asProduct := 1, estValue := 1, explored := [],
    minDepth := some 0, purchasePrice := some 1, solved := true,
    templates := [], terminal := true, visitCount := 1, done := true }

/-- Fixture tree for path enumeration: a single terminal chemical. -/
def t6 : Graph :=
  ⟨[("C", NodeData.chem c6data)], []⟩

/-- The one tree enumerated from `t6`. -/
def g6 : Graph :=
  ⟨[("uuid-0", NodeData.chem c6data)], []⟩

/-- A one-reaction output tree with plausibility 1/2. -/
def g8a : Graph :=
  ⟨[("uuid-1", NodeData.chem c6data),
    ("uuid-2", NodeData.rxn
      { estValue := 1, ffScore := mkRat 1 2, solved := true, templateScore := mkRat 1 2,
        templates := [0], visitCount := 1 })],
   [("uuid-1", "uuid-2")]⟩

/-- A one-reaction output tree with plausibility 3/4. -/
def g8b : Graph :=
  ⟨[("uuid-3", NodeData.chem c6data),
    ("uuid-4", NodeData.rxn
      { estValue := 1, ffScore := mkRat 3 4, solved := true, templateScore := mkRat 1 2,
        templates := [1], visitCount := 1 })],
   [("uuid-3", "uuid-4")]⟩

/-- Fixture for the reaction-invariant claim: a lone root chemical about
to be expanded with one fresh precursor set. -/
def st9 : MCTSState :=
  { tree :=
      ⟨[("CCO", NodeData.chem
          { asReactant := 0, asProduct := 0, estValue := 0, explored := [0],
            minDepth := some 0, purchasePrice := none, solved := false,
            templates := [(0, mkRat 1 2)], terminal := false, visitCount := 1, done := false })],
       []⟩
    target := "CCO"
    chemicals := ["CCO"]
    reactions := []
    iterations := 0
    timeToSolve := 0 }

def opts10 : Opts :=
  { baseOpts with maxIterations := some 3 }

/-- A state whose iteration counter already exceeds the budget. -/
def st10 : MCTSState :=
  { tree := ⟨[("N", NodeData.chem defaultChem)], []⟩
    target := "N"
    chemicals := ["N"]
    reactions := []
    iterations := 5
    timeToSolve := 7 }

/-- The node data of the root chemical right after `_initialize` on a
fresh tree: the attributes from `create_chemical_node` with the
terminal/done/solved flags forced to false by lines 272-274. -/
def initRootData (opts : Opts) (collab : Collab) (target : String) : ChemData :=
  { asReactant := (collab.histLookup target).1
    asProduct := (collab.histLookup target).2
    estValue := if isTerminal opts collab target (collab.priceLookup target)
        (collab.histLookup target) then 1 else 0
    explored := []
    minDepth := none
    purchasePrice := collab.priceLookup target
    solved := false
    templates := collab.templatePredict target
    terminal := false
    visitCount := 1
    done := false }

/-! ### Basic lemmas about the graph operations -/

theorem edges_updateNode (g : Graph) (k : String) (f : NodeData → NodeData) :
    (updateNode g k f).edges = g.edges := rfl

theorem edges_setNode (g : Graph) (k : String) (d : NodeData) :
    (setNode g k d).edges = g.edges := by
  unfold setNode
  split <;> rfl

theorem successors_eq_of_edges {g₁ g₂ : Graph} (h : g₁.edges = g₂.edges) (n : String) :
    successors g₁ n = successors g₂ n := by
  unfold successors
  rw [h]

theorem predecessors_eq_of_edges {g₁ g₂ : Graph} (h : g₁.edges = g₂.edges) (n : String) :
    predecessors g₁ n = predecessors g₂ n := by
  unfold predecessors
  rw [h]

theorem outDegree_eq_of_edges {g₁ g₂ : Graph} (h : g₁.edges = g₂.edges) (n : String) :
    outDegree g₁ n = outDegree g₂ n := by
  unfold outDegree
  rw [successors_eq_of_edges h]

theorem lookupNode_updateNode (g : Graph) (k k' : String) (f : NodeData → NodeData) :
    lookupNode (updateNode g k f) k'
      = if k' = k then (lookupNode g k).map f else lookupNode g k' := by
  unfold lookupNode updateNode
  simp only []
  induction g.nodes with
  | nil => split <;> simp
  | cons p ps ih =>
    by_cases hp : p.1 = k
    · by_cases hk : k' = k
      · subst hk
        simp [List.find?_cons, hp]
      · simp [List.find?_cons, hp, hk, Ne.symm hk] at ih ⊢
        simpa [hk] using ih
    · by_cases hk : k' = k
      · subst hk
        simp [List.find?_cons, hp, Ne.symm hp] at ih ⊢
        simpa using ih
      · by_cases hpk : p.1 = k'
        · simp [List.find?_cons, hp, hpk, hk]
        · simp [List.find?_cons, hp, hpk, hk] at ih ⊢
          simpa [hk] using ih

theorem lookupNode_updateNode_self (g : Graph) (k : String) (f : NodeData → NodeData) :
    lookupNode (updateNode g k f) k = (lookupNode g k).map f := by
  rw [lookupNode_updateNode]
  simp

theorem lookupNode_updateNode_ne (g : Graph) (k k' : String) (f : NodeData → NodeData)
    (h : k' ≠ k) :
    lookupNode (updateNode g k f) k' = lookupNode g k' := by
  rw [lookupNode_updateNode]
  simp [h]

theorem find?_key_map_set (l : List (String × NodeData)) (k : String) (d : NodeData) :
    (l.map (fun p => if p.1 == k then (k, d) else p)).find? (fun p => p.1 == k)
      = (l.find? (fun p => p.1 == k)).map (fun _ => (k, d)) := by
  rw [List.find?_map]
  have hfun : ((fun p : String × NodeData => p.1 == k)
        ∘ fun p : String × NodeData => if p.1 == k then (k, d) else p)
      = fun p : String × NodeData => p.1 == k := by
    funext p
    by_cases hp : (p.1 == k) = true
    · simp [Function.comp, hp]
    · simp [Function.comp, hp]
  rw [hfun]
  cases hfind : l.find? (fun p => p.1 == k) with
  | none => rfl
  | some v =>
    have hv := List.find?_some hfind
    have hv' : v.1 = k := by simpa using hv
    simp [hv']

theorem find?_key_map_set_ne (l : List (String × NodeData)) (k k' : String) (d : NodeData)
    (hk : k' ≠ k) :
    (l.map (fun p => if p.1 == k then (k, d) else p)).find? (fun p => p.1 == k')
      = l.find? (fun p => p.1 == k') := by
  rw [List.find?_map]
  have hfun : ((fun p : String × NodeData => p.1 == k')
        ∘ fun p : String × NodeData => if p.1 == k then (k, d) else p)
      = fun p : String × NodeData => p.1 == k' := by
    funext p
    by_cases hp : (p.1 == k) = true
    · have : p.1 = k := by simpa using hp
      simp [Function.comp, hp, this, Ne.symm hk]
    · simp [Function.comp, hp]
  rw [hfun]
  cases hfind : l.find? (fun p => p.1 == k') with
  | none => rfl
  | some v =>
    have hv := List.find?_some hfind
    have hv' : v.1 = k' := by simpa using hv
    simp [hv', hk]

theorem lookupNode_setNode (g : Graph) (k : String) (d : NodeData) (k' : String) :
    lookupNode (setNode g k d) k' = if k' = k then some d else lookupNode g k' := by
  unfold setNode lookupNode
  by_cases hex : (g.nodes.any (fun p => p.1 == k)) = true
  · rw [if_pos hex]
    by_cases hk : k' = k
    · rw [hk, if_pos rfl]
      simp only [find?_key_map_set]
      rcases List.any_eq_true.mp hex with ⟨q, hq, hqk⟩
      have hsome : (g.nodes.find? (fun p => p.1 == k)).isSome := by
        rw [List.find?_isSome]
        exact ⟨q, hq, hqk⟩
      rcases Option.isSome_iff_exists.mp hsome with ⟨v, hv⟩
      simp [hv]
    · rw [find?_key_map_set_ne g.nodes k k' d hk, if_neg hk]
  · rw [if_neg hex]
    by_cases hk : k' = k
    · rw [hk, if_pos rfl]
      have hnone : g.nodes.find? (fun p => p.1 == k) = none := by
        rw [List.find?_eq_none]
        intro x hx hc
        exact hex (List.any_eq_true.mpr ⟨x, hx, hc⟩)
      simp [List.find?_append, hnone]
    · rw [if_neg hk]
      have hone : ([(k, d)].find? (fun p => p.1 == k')) = none := by
        simp [Ne.symm hk]
      simp [List.find?_append, hone]

/-! ### Solved-flag assignment in a single `_update_value` -/

/-- After `_update_value` on a reaction node, the reaction's solved
flag is true iff it was already flagged solved or all of its precursor
children are solved; the parent chemical's solved flag is then
*assigned* that same value (overwritten, not or-ed). -/
theorem updateValue_solved_assignment (s : MCTSState) (r p : String)
    (rd : RxnData) (pd : ChemData)
    (hr : lookupNode s.tree r = some (NodeData.rxn rd))
    (hp : (predecessors s.tree r).head? = some p)
    (hpd : lookupNode s.tree p = some (NodeData.chem pd)) :
    rxnSolvedCached (updateValue s r).tree r
      = (rd.solved || (successors s.tree r).all (fun c => chemSolvedCached s.tree c))
    ∧ chemSolvedCached (updateValue s r).tree p
      = (rd.solved || (successors s.tree r).all (fun c => chemSolvedCached s.tree c)) := by
  have hne : p ≠ r := by
    intro h
    rw [h, hr] at hpd
    exact absurd hpd (by simp)
  unfold updateValue
  rw [hr]
  simp only [hp]
  constructor
  · unfold rxnSolvedCached rxnDataOf
    rw [lookupNode_updateNode_ne _ _ _ _ (Ne.symm hne), lookupNode_updateNode_self, hr]
    rfl
  · unfold chemSolvedCached chemDataOf
    rw [lookupNode_updateNode_self, lookupNode_updateNode_ne _ _ _ _ hne, hpd]
    rfl

/-- `updateValue_solved_assignment` evaluated on the concrete state
`stC1` at the unsolved reaction `CO>>CCO`. -/
theorem updateValue_solved_assignment_witness :
    lookupNode stC1.tree "CO>>CCO" = some (NodeData.rxn rdC1)
    ∧ (predecessors stC1.tree "CO>>CCO").head? = some "CCO"
    ∧ lookupNode stC1.tree "CCO" = some (NodeData.chem pdC1)
    ∧ (rxnSolvedCached (updateValue stC1 "CO>>CCO").tree "CO>>CCO"
        = (rdC1.solved
           || (successors stC1.tree "CO>>CCO").all (fun c => chemSolvedCached stC1.tree c))
      ∧ chemSolvedCached (updateValue stC1 "CO>>CCO").tree "CCO"
        = (rdC1.solved
           || (successors stC1.tree "CO>>CCO").all (fun c => chemSolvedCached stC1.tree c))) :=
  ⟨by rfl, by decide, by rfl,
    updateValue_solved_assignment stC1 "CO>>CCO" "CCO" rdC1 pdC1
      (by rfl) (by decide) (by rfl)⟩

/-- C1 (counterexample): in `stC1` the root `CCO` is solved (through the
solved reaction `CC>>CCO`), but one `_update` backpropagation pass along
the path through the unsolved sibling reaction `CO>>CCO` reports it
unsolved again — refuting the claim that a chemical already marked
solved via one reaction is never reported unsolved by a later value
update. -/
theorem update_unmarks_solved_chemical :
    chemSolvedCached stC1.tree "CCO" = true
    ∧ rxnSolvedCached stC1.tree "CC>>CCO" = true
    ∧ chemSolvedCached (update baseOpts stC1 ["CCO", "CO"] ["CO>>CCO"]).tree "CCO" = false := by
  decide

/-! ### C10: `clear`/`build_tree` and the iteration budget -/

theorem initTree_iterations (opts : Opts) (collab : Collab) (s : MCTSState) (target : String) :
    (initTree opts collab s target).iterations = s.iterations := by
  simp [initTree, createChemicalNode, isChemicalDoneUpdate]

theorem initTree_timeToSolve (opts : Opts) (collab : Collab) (s : MCTSState) (target : String) :
    (initTree opts collab s target).timeToSolve = s.timeToSolve := by
  simp [initTree, createChemicalNode, isChemicalDoneUpdate]

/-- C10: `clear` empties only the graph and the chemicals/reactions
lists, preserving `iterations` and `time_to_solve`; re-running
`build_tree` on the cleared state initializes the root but finds the
`done` property already true when the surviving iteration counter meets
`max_iterations`, so the expansion loop performs zero rollouts. -/
theorem clear_keeps_counters_and_budget_blocks_rebuild
    (opts : Opts) (collab : Collab) (s : MCTSState) (target : String) (m : Nat)
    (step : MCTSState → MCTSState) (fuel : Nat)
    (hm : opts.maxIterations = some m) (hit : m ≤ s.iterations) :
    (clear s).iterations = s.iterations
    ∧ (clear s).timeToSolve = s.timeToSolve
    ∧ (clear s).tree = ⟨[], []⟩
    ∧ (clear s).chemicals = []
    ∧ (clear s).reactions = []
    ∧ doneB opts (initTree opts collab (clear s) target) = true
    ∧ buildLoop opts step fuel (initTree opts collab (clear s) target)
        = (initTree opts collab (clear s) target, 0) := by
  have hiter : (initTree opts collab (clear s) target).iterations = s.iterations := by
    rw [initTree_iterations]
    rfl
  have hdone : doneB opts (initTree opts collab (clear s) target) = true := by
    unfold doneB
    rw [hm, hiter]
    simp [hit]
  refine ⟨rfl, rfl, rfl, rfl, rfl, hdone, ?_⟩
  cases fuel with
  | zero => rfl
  | succ n => simp [buildLoop, hdone]

/-- C10 witness: `clear_keeps_counters_and_budget_blocks_rebuild` at the
concrete state `st10` (5 iterations already performed, budget 3). -/
theorem clear_budget_blocks_rebuild_witness :
    opts10.maxIterations = some 3
    ∧ 3 ≤ st10.iterations
    ∧ ((clear st10).iterations = st10.iterations
      ∧ (clear st10).timeToSolve = st10.timeToSolve
      ∧ (clear st10).tree = ⟨[], []⟩
      ∧ (clear st10).chemicals = []
      ∧ (clear st10).reactions = []
      ∧ doneB opts10 (initTree opts10 baseCollab (clear st10) "N") = true
      ∧ buildLoop opts10 id 2 (initTree opts10 baseCollab (clear st10) "N")
          = (initTree opts10 baseCollab (clear st10) "N", 0)) :=
  ⟨by decide, by decide,
    clear_keeps_counters_and_budget_blocks_rebuild opts10 baseCollab st10 "N" 3 id 2
      (by decide) (by decide)⟩

/-! ### C3: the done predicate for chemical nodes -/

/-- For duplicate-free lists with `l₁ ⊆ l₂`, equal lengths are the same
as `l₂ ⊆ l₁`.  Relates the source's
`len(explored) == len(templates)` test to "every offered template has
been explored". -/
theorem length_eq_iff_all_mem {l₁ l₂ : List Nat} (h₁ : l₁.Nodup) (h₂ : l₂.Nodup)
    (hsub : ∀ e ∈ l₁, e ∈ l₂) : l₁.length = l₂.length ↔ ∀ k ∈ l₂, k ∈ l₁ := by
  have hfsub : l₁.toFinset ⊆ l₂.toFinset := by
    intro x hx
    rw [List.mem_toFinset] at hx ⊢
    exact hsub x hx
  constructor
  · intro hlen k hk
    have hcard : l₂.toFinset.card ≤ l₁.toFinset.card := by
      rw [List.toFinset_card_of_nodup h₁, List.toFinset_card_of_nodup h₂, hlen]
    have heq := Finset.eq_of_subset_of_card_le hfsub hcard
    rw [← List.mem_toFinset, ← heq, List.mem_toFinset] at hk
    exact hk
  · intro hback
    have hfsub' : l₂.toFinset ⊆ l₁.toFinset := by
      intro x hx
      rw [List.mem_toFinset] at hx ⊢
      exact hback x hx
    have heq := Finset.Subset.antisymm hfsub hfsub'
    rw [← List.toFinset_card_of_nodup h₁, ← List.toFinset_card_of_nodup h₂, heq]

/-- C3: `is_chemical_done(smiles, update=True)` returns true exactly
when the chemical is terminal, or its template mapping is empty, or its
recorded minimum depth is at or beyond `max_depth`, or (its out-degree
is at least `max_branching`, or every offered template has been
explored) and every existing reaction child is done.  The nodup/subset
hypotheses state that the explored list holds distinct template ids
drawn from the offered mapping, which `_expand` maintains. -/
theorem is_chemical_done_update_iff (opts : Opts) (t : Graph) (smiles : String)
    (d : ChemData)
    (hd : lookupNode t smiles = some (NodeData.chem d))
    (hkeys : (d.templates.map Prod.fst).Nodup)
    (hexp : d.explored.Nodup)
    (hsub : ∀ e ∈ d.explored, e ∈ d.templates.map Prod.fst) :
    computeChemDone opts t smiles = true ↔
      (d.terminal = true
       ∨ d.templates = []
       ∨ (∃ md, d.minDepth = some md ∧ opts.maxDepth ≤ md)
       ∨ ((opts.maxBranching ≤ outDegree t smiles
           ∨ ∀ k ∈ d.templates.map Prod.fst, k ∈ d.explored)
          ∧ ∀ r ∈ successors t smiles, isReactionDone t r = true)) := by
  have hlen : d.explored.length = d.templates.length ↔
      ∀ k ∈ d.templates.map Prod.fst, k ∈ d.explored := by
    have := length_eq_iff_all_mem hexp hkeys hsub
    rwa [List.length_map] at this
  unfold computeChemDone
  rw [hd]
  show (if d.terminal = true then true
        else if (d.templates.length == 0) = true then true
        else if (match d.minDepth with
                 | some md => decide (opts.maxDepth ≤ md)
                 | none => false) = true then true
        else if (decide (opts.maxBranching ≤ outDegree t smiles)
                 || d.explored.length == d.templates.length) = true then
          (successors t smiles).all fun r => isReactionDone t r
        else false) = true ↔ _
  by_cases h1 : d.terminal
  · simp [h1]
  · rw [if_neg h1]
    by_cases h2 : d.templates.length == 0
    · have h2' : d.templates = [] := by
        rw [← List.length_eq_zero]
        simpa using h2
      simp [h2, h2']
    · rw [if_neg h2]
      have h2' : ¬d.templates = [] := by
        intro h
        apply h2
        simp [h]
      by_cases h3 : (match d.minDepth with
                     | some md => decide (opts.maxDepth ≤ md)
                     | none => false) = true
      · rw [if_pos h3]
        have h3' : ∃ md, d.minDepth = some md ∧ opts.maxDepth ≤ md := by
          cases hmd : d.minDepth with
          | none => rw [hmd] at h3; simp at h3
          | some md =>
            rw [hmd] at h3
            exact ⟨md, rfl, by simpa using h3⟩
        simp [h1, h3']
      · rw [if_neg h3]
        have h3' : ¬∃ md, d.minDepth = some md ∧ opts.maxDepth ≤ md := by
          intro hcon
          rcases hcon with ⟨md, hmd, hle⟩
          rw [hmd] at h3
          exact h3 (by simpa using hle)
        by_cases h4 : (decide (opts.maxBranching ≤ outDegree t smiles)
            || d.explored.length == d.templates.length) = true
        · rw [if_pos h4]
          have h4' : opts.maxBranching ≤ outDegree t smiles
              ∨ ∀ k ∈ d.templates.map Prod.fst, k ∈ d.explored := by
            rcases Bool.or_eq_true_iff.mp h4 with hc | hc
            · exact Or.inl (by simpa using hc)
            · exact Or.inr (hlen.mp (by simpa using hc))
          simp only [List.all_eq_true]
          constructor
          · intro hall
            exact Or.inr (Or.inr (Or.inr ⟨h4', hall⟩))
          · intro hcon
            rcases hcon with hc | hc | hc | hc
            · exact absurd hc (by simpa using h1)
            · exact absurd hc h2'
            · exact absurd hc h3'
            · exact hc.2
        · rw [if_neg h4]
          have h4' : ¬(opts.maxBranching ≤ outDegree t smiles
              ∨ ∀ k ∈ d.templates.map Prod.fst, k ∈ d.explored) := by
            intro hcon
            apply h4
            rcases hcon with hc | hc
            · exact Bool.or_eq_true_iff.mpr (Or.inl (by simpa using hc))
            · exact Bool.or_eq_true_iff.mpr (Or.inr (by simpa using hlen.mpr hc))
          simp only [Bool.false_eq_true, false_iff]
          intro hcon
          rcases hcon with hc | hc | hc | hc
          · exact absurd hc (by simpa using h1)
          · exact absurd hc h2'
          · exact absurd hc h3'
          · exact absurd hc.1 h4'

/-- C3 witness: the iff evaluated on the fixture `t3`, where both
templates of `X` are explored and its only reaction child is done. -/
theorem is_chemical_done_update_iff_witness :
    lookupNode t3 "X" = some (NodeData.chem d3)
    ∧ (d3.templates.map Prod.fst).Nodup
    ∧ d3.explored.Nodup
    ∧ (∀ e ∈ d3.explored, e ∈ d3.templates.map Prod.fst)
    ∧ (computeChemDone baseOpts t3 "X" = true ↔
        (d3.terminal = true
         ∨ d3.templates = []
         ∨ (∃ md, d3.minDepth = some md ∧ baseOpts.maxDepth ≤ md)
         ∨ ((baseOpts.maxBranching ≤ outDegree t3 "X"
             ∨ ∀ k ∈ d3.templates.map Prod.fst, k ∈ d3.explored)
            ∧ ∀ r ∈ successors t3 "X", isReactionDone t3 r = true))) :=
  ⟨by rfl, by decide, by decide, by decide,
    is_chemical_done_update_iff baseOpts t3 "X" d3 (by rfl) (by decide) (by decide) (by decide)⟩

/-! ### C4: cycle-inducing candidate sets are abandoned -/

theorem createChemicalNode_frame (opts : Opts) (collab : Collab) (s : MCTSState)
    (smiles : String) :
    (createChemicalNode opts collab s smiles).tree.edges = s.tree.edges
    ∧ (createChemicalNode opts collab s smiles).reactions = s.reactions
    ∧ (createChemicalNode opts collab s smiles).chemicals = s.chemicals ++ [smiles] := by
  unfold createChemicalNode isChemicalDoneUpdate
  refine ⟨?_, rfl, rfl⟩
  rw [edges_updateNode, edges_setNode]

/-- The reactant loop of `_process_precursors` never touches edges or
reactions; it only appends newly created chemicals. -/
theorem processReactants_frame (opts : Opts) (collab : Collab) (target : String)
    (path : List String) (rl : List String) (s : MCTSState) :
    (processReactants opts collab s target path rl).1.tree.edges = s.tree.edges
    ∧ (processReactants opts collab s target path rl).1.reactions = s.reactions
    ∧ ∃ extra, (processReactants opts collab s target path rl).1.chemicals
        = s.chemicals ++ extra := by
  induction rl generalizing s with
  | nil => exact ⟨rfl, rfl, [], by simp [processReactants]⟩
  | cons c rest ih =>
    unfold processReactants
    by_cases h1 : s.chemicals.contains c
    · rw [if_pos h1]
      by_cases h2 : (path.contains c || hasPathB s.tree c target) = true
      · rw [if_pos h2]
        exact ⟨rfl, rfl, [], by simp⟩
      · rw [if_neg h2]
        exact ih s
    · rw [if_neg h1]
      obtain ⟨he, hr, hc⟩ := createChemicalNode_frame opts collab s c
      obtain ⟨ihe, ihr, ihc⟩ := ih (createChemicalNode opts collab s c)
      refine ⟨ihe.trans he, ihr.trans hr, ?_⟩
      rcases ihc with ⟨extra, hextra⟩
      exact ⟨[c] ++ extra, by rw [hextra, hc, List.append_assoc]⟩

/-- C4 (amended): if processing a candidate precursor set hits the
cycle-detection `break`, the whole set is abandoned silently — no
reaction node is registered and no edge is added — but Chemical nodes
created for precursors examined before the cycle-inducing one remain
(the `chemicals` list may gain a prefix of the set's new precursors). -/
theorem process_one_set_cycle_abandons_set (opts : Opts) (collab : Collab)
    (s : MCTSState) (target : String) (template : Nat) (path : List String)
    (rl : List String)
    (hbreak : (processReactants opts collab s target path rl).2 = false) :
    (processOneSet opts collab s target template path rl).tree.edges = s.tree.edges
    ∧ (processOneSet opts collab s target template path rl).reactions = s.reactions
    ∧ ∃ extra, (processOneSet opts collab s target template path rl).chemicals
        = s.chemicals ++ extra := by
  unfold processOneSet
  by_cases hff : collab.fastFilter (joinDot rl) target < opts.fastFilterThreshold
  · rw [if_pos hff]
    exact ⟨rfl, rfl, [], by simp⟩
  · rw [if_neg hff]
    by_cases hbr : opts.bannedReactions.contains (joinDot rl ++ ">>" ++ target)
    · rw [if_pos hbr]
      exact ⟨rfl, rfl, [], by simp⟩
    · rw [if_neg hbr]
      by_cases hbc : rl.any (fun r => opts.bannedChemicals.contains r)
      · rw [if_pos hbc]
        exact ⟨rfl, rfl, [], by simp⟩
      · rw [if_neg hbc]
        obtain ⟨he, hr, hc⟩ := processReactants_frame opts collab target path rl s
        rcases hpr : processReactants opts collab s target path rl with ⟨s', b⟩
        rw [hpr] at hbreak he hr hc
        simp only at hbreak
        rw [hbreak] at hpr ⊢
        simp only at he hr hc
        exact ⟨he, hr, hc⟩

/-- C4 witness: `process_one_set_cycle_abandons_set` at the fixture
`st4`, whose candidate set `[CC, CO]` breaks on `CO` (it is on the
current path). -/
theorem process_one_set_cycle_abandons_set_witness :
    (processReactants baseOpts baseCollab st4 "CCO" ["CO", "CCO"] ["CC", "CO"]).2 = false
    ∧ ((processOneSet baseOpts baseCollab st4 "CCO" 0 ["CO", "CCO"] ["CC", "CO"]).tree.edges
        = st4.tree.edges
      ∧ (processOneSet baseOpts baseCollab st4 "CCO" 0 ["CO", "CCO"] ["CC", "CO"]).reactions
        = st4.reactions
      ∧ ∃ extra, (processOneSet baseOpts baseCollab st4 "CCO" 0 ["CO", "CCO"] ["CC", "CO"]).chemicals
          = st4.chemicals ++ extra) :=
  ⟨by decide,
    process_one_set_cycle_abandons_set baseOpts baseCollab st4 "CCO" 0 ["CO", "CCO"]
      ["CC", "CO"] (by decide)⟩

/-- C4 (counterexample): in `st4` the candidate set `[CC, CO]` is
cycle-inducing at `CO`, and `_process_precursors` adds no edges and no
reaction — but it *does* add a Chemical node for `CC`, refuting the
claim that no nodes are added for an abandoned set. -/
theorem process_precursors_partial_chemical_remains :
    lookupNode st4.tree "CC" = none
    ∧ (lookupNode (processPrecursors baseOpts baseCollab st4 "CCO" 0 [["CC", "CO"]]
        ["CO", "CCO"]).tree "CC").isSome = true
    ∧ (processPrecursors baseOpts baseCollab st4 "CCO" 0 [["CC", "CO"]]
        ["CO", "CCO"]).chemicals = ["CO", "CCO", "CC"]
    ∧ (processPrecursors baseOpts baseCollab st4 "CCO" 0 [["CC", "CO"]]
        ["CO", "CCO"]).tree.edges = []
    ∧ (processPrecursors baseOpts baseCollab st4 "CCO" 0 [["CC", "CO"]]
        ["CO", "CCO"]).reactions = [] := by
  decide

/-! ### C2: the descent rule during selection -/

theorem minByVisitAux_mem (t : Graph) (b : String) (l : List String) :
    minByVisitAux t b l = b ∨ minByVisitAux t b l ∈ l := by
  induction l generalizing b with
  | nil => exact Or.inl rfl
  | cons c rest ih =>
    unfold minByVisitAux
    by_cases h : chemVisitsOf t c < chemVisitsOf t b
    · rw [if_pos h]
      rcases ih c with hc | hc
      · exact Or.inr (by simp [hc])
      · exact Or.inr (by simp [hc])
    · rw [if_neg h]
      rcases ih b with hc | hc
      · exact Or.inl hc
      · exact Or.inr (by simp [hc])

theorem minByVisitAux_le (t : Graph) (b : String) (l : List String) :
    chemVisitsOf t (minByVisitAux t b l) ≤ chemVisitsOf t b
    ∧ ∀ c ∈ l, chemVisitsOf t (minByVisitAux t b l) ≤ chemVisitsOf t c := by
  induction l generalizing b with
  | nil => exact ⟨le_refl _, by simp⟩
  | cons c rest ih =>
    unfold minByVisitAux
    by_cases h : chemVisitsOf t c < chemVisitsOf t b
    · rw [if_pos h]
      obtain ⟨h1, h2⟩ := ih c
      refine ⟨le_trans h1 (le_of_lt h), ?_⟩
      intro x hx
      rcases List.mem_cons.mp hx with hx | hx
      · rw [hx]; exact h1
      · exact h2 x hx
    · rw [if_neg h]
      obtain ⟨h1, h2⟩ := ih b
      refine ⟨h1, ?_⟩
      intro x hx
      rcases List.mem_cons.mp hx with hx | hx
      · rw [hx]; exact le_trans h1 (le_of_not_lt h)
      · exact h2 x hx

theorem minByVisit_mem (t : Graph) (l : List String) (p : String)
    (h : minByVisit t l = some p) : p ∈ l := by
  cases l with
  | nil => simp [minByVisit] at h
  | cons c rest =>
    have hp : minByVisitAux t c rest = p := by simpa [minByVisit] using h
    rcases minByVisitAux_mem t c rest with hm | hm
    · rw [hp] at hm; simp [← hm]
    · rw [hp] at hm; simp [hm]

theorem minByVisit_le (t : Graph) (l : List String) (p : String)
    (h : minByVisit t l = some p) :
    ∀ c ∈ l, chemVisitsOf t p ≤ chemVisitsOf t c := by
  cases l with
  | nil => simp [minByVisit] at h
  | cons c rest =>
    have hp : minByVisitAux t c rest = p := by simpa [minByVisit] using h
    obtain ⟨h1, h2⟩ := minByVisitAux_le t c rest
    rw [hp] at h1 h2
    intro x hx
    rcases List.mem_cons.mp hx with hx | hx
    · rw [hx]; exact h1
    · exact h2 x hx

/-- C2 (amended): when the best-scoring option at the current leaf is an
already-explored reaction, the loop body of `_select` descends to the
precursor child with the lowest visit count among the reaction's
children that are *not done (cached flag) and not in the invalid set
accumulated during this selection* — not "not on the current path" as
the claim words it (children on the path were already excluded when the
reaction was scored in `ucb`, but backtracked chemicals land in the
invalid set and are excluded even when a fresh descent through them
would be possible).  If no such precursor exists, the reaction is added
to the invalid set and the loop retries from the same leaf. -/
theorem selectStep_descends_to_min_visit (opts : Opts) (collab : Collab)
    (s : MCTSState) (cp rp inv : List String) (leaf task : String)
    (hleaf : cp.getLast? = some leaf)
    (hbest : ((ucbList opts collab s leaf cp inv).head?).map (fun x => x.2)
        = some (Task.onRxn task)) :
    (minByVisit s.tree (descendCands s task inv) = none →
      selectStep opts collab s cp rp inv = SelOut.more cp rp (task :: inv))
    ∧ ∀ p, minByVisit s.tree (descendCands s task inv) = some p →
      selectStep opts collab s cp rp inv = SelOut.more (cp ++ [p]) (rp ++ [task]) inv
      ∧ p ∈ descendCands s task inv
      ∧ ∀ c ∈ descendCands s task inv, chemVisitsOf s.tree p ≤ chemVisitsOf s.tree c := by
  have hhead : ∃ sc, (ucbList opts collab s leaf cp inv).head? = some (sc, Task.onRxn task) := by
    cases hh : (ucbList opts collab s leaf cp inv).head? with
    | none => rw [hh] at hbest; simp at hbest
    | some x =>
      rw [hh] at hbest
      refine ⟨x.1, ?_⟩
      have : x.2 = Task.onRxn task := by simpa using hbest
      rw [← this]
  rcases hhead with ⟨sc, hh⟩
  constructor
  · intro hnone
    simp only [selectStep, hleaf, hh, hnone]
  · intro p hp
    refine ⟨?_, minByVisit_mem _ _ _ hp, minByVisit_le _ _ _ hp⟩
    simp only [selectStep, hleaf, hh, hp]

/-- C2 witness: `selectStep_descends_to_min_visit` at the fixture `st2`
in the post-backtrack loop state (path back at the root, `CC` in the
invalid set), where the code descends to `CO`. -/
theorem selectStep_descends_to_min_visit_witness :
    (["CCO"] : List String).getLast? = some "CCO"
    ∧ ((ucbList opts2 baseCollab st2 "CCO" ["CCO"] ["CC"]).head?).map (fun x => x.2)
        = some (Task.onRxn "CC.CO>>CCO")
    ∧ (∀ p, minByVisit st2.tree (descendCands st2 "CC.CO>>CCO" ["CC"]) = some p →
        selectStep opts2 baseCollab st2 ["CCO"] [] ["CC"]
            = SelOut.more (["CCO"] ++ [p]) ([] ++ ["CC.CO>>CCO"]) ["CC"]
        ∧ p ∈ descendCands st2 "CC.CO>>CCO" ["CC"]
        ∧ ∀ c ∈ descendCands st2 "CC.CO>>CCO" ["CC"],
            chemVisitsOf st2.tree p ≤ chemVisitsOf st2.tree c)
    ∧ minByVisit st2.tree (descendCands st2 "CC.CO>>CCO" ["CC"]) = some "CO" :=
  ⟨by decide, by decide,
    (selectStep_descends_to_min_visit opts2 baseCollab st2 ["CCO"] [] ["CC"]
      "CCO" "CC.CO>>CCO" (by decide) (by decide)).2,
    by decide⟩

/-- C2 (counterexample): running the full `_select` on `st2` (after its
first descent backtracks out of `CC`), the algorithm descends from the
reaction `CC.CO>>CCO` to `CO` (5 visits) even though `CC` (1 visit) is
not done and not on the current path `[CCO]` — the claim's filter (not
done, not on the path) would require descending to `CC`.  The code
filters on the invalid set instead. -/
theorem select_filter_uses_invalid_set_not_path :
    select opts2 baseCollab st2 4 = some (["CCO", "CO"], ["CC.CO>>CCO"], 2)
    ∧ specDescendChoice st2.tree "CC.CO>>CCO" ["CCO"] = some "CC"
    ∧ ("CC" : String) ≠ "CO" := by
  decide

/-! ### C5: initialization of a terminal-criterion-satisfying target -/

theorem initTree_emptyState_tree (opts : Opts) (collab : Collab) (target : String) :
    (initTree opts collab emptyState target).tree
      = ⟨[(target, NodeData.chem (initRootData opts collab target))], []⟩ := by
  unfold initTree createChemicalNode isChemicalDoneUpdate updateNode setNode emptyState
    initRootData
  simp

/-- C5 (amended): initializing a fresh tree forces the root's
terminal/done/solved flags to false regardless of the target's own
terminal evaluation (so a purchasable target is *not* immediately marked
solved or done), and path extraction with validation on the freshly
initialized tree returns no trees at all (the only enumerable tree is
the single non-terminal root, which validation rejects). -/
theorem init_forces_root_flags_false (opts : Opts) (collab : Collab) (target : String)
    (md mt : Option Nat) (fuel : Nat) (hf : 0 < fuel) :
    chemTerminalCached (initTree opts collab emptyState target).tree target = false
    ∧ chemDoneCached (initTree opts collab emptyState target).tree target = false
    ∧ chemSolvedCached (initTree opts collab emptyState target).tree target = false
    ∧ getPathsList (initTree opts collab emptyState target).tree target md mt
        (some validatePath) fuel = [] := by
  obtain ⟨n, rfl⟩ : ∃ n, fuel = n + 1 := ⟨fuel - 1, by omega⟩
  rw [initTree_emptyState_tree]
  refine ⟨by simp [chemTerminalCached, chemDataOf, lookupNode, initRootData],
          by simp [chemDoneCached, chemDataOf, lookupNode, initRootData],
          by simp [chemSolvedCached, chemDataOf, lookupNode, initRootData], ?_⟩
  unfold getPathsList getChemPaths
  simp only [outDegree, successors, List.filter_nil, List.map_nil, List.length_nil,
    Nat.zero_eq, beq_self_eq_true, Bool.true_or, if_true]
  unfold takeValidated
  split
  · rfl
  · have hval : validatePath
        ⟨[(mkUuid 0, nodeDataOf ⟨[(target, NodeData.chem (initRootData opts collab target))], []⟩
            target)], []⟩ = false := by
      simp [validatePath, outDegree, successors, terminalFlag, nodeDataOf, lookupNode,
        initRootData]
    dsimp only
    rw [hval]
    simp [takeValidated]

/-- C5 witness: `init_forces_root_flags_false` for the purchasable
target `CCO` under `opts5`/`collab5`. -/
theorem init_forces_root_flags_false_witness :
    0 < 1
    ∧ (chemTerminalCached (initTree opts5 collab5 emptyState "CCO").tree "CCO" = false
      ∧ chemDoneCached (initTree opts5 collab5 emptyState "CCO").tree "CCO" = false
      ∧ chemSolvedCached (initTree opts5 collab5 emptyState "CCO").tree "CCO" = false
      ∧ getPathsList (initTree opts5 collab5 emptyState "CCO").tree "CCO" none none
          (some validatePath) 1 = []) :=
  ⟨by decide, init_forces_root_flags_false opts5 collab5 "CCO" none none 1 (by decide)⟩

/-- C5 (counterexample): the target `CCO` satisfies the terminal
criterion under `opts5`/`collab5` (price 1, cap 100), yet after tree
initialization the root is neither terminal nor done nor solved, the
`done` property is still false (so expansion proceeds), and validated
path extraction returns zero trees instead of exactly one trivial
single-node tree. -/
theorem terminal_target_not_marked_solved :
    isTerminal opts5 collab5 "CCO" (collab5.priceLookup "CCO") (collab5.histLookup "CCO") = true
    ∧ chemTerminalCached (initTree opts5 collab5 emptyState "CCO").tree "CCO" = false
    ∧ chemDoneCached (initTree opts5 collab5 emptyState "CCO").tree "CCO" = false
    ∧ chemSolvedCached (initTree opts5 collab5 emptyState "CCO").tree "CCO" = false
    ∧ doneB opts5 (initTree opts5 collab5 emptyState "CCO") = false
    ∧ getPathsList (initTree opts5 collab5 emptyState "CCO").tree "CCO" none none
        (some validatePath) 5 = [] := by
  decide

/-! ### C6: validated path enumeration only emits terminal-leaved trees -/

theorem mem_takeValidated_validates (mt : Option Nat) (f : Graph → Bool)
    (l : List Graph) (n : Nat) (g : Graph)
    (hg : g ∈ takeValidated mt (some f) l n) : f g = true := by
  induction l generalizing n with
  | nil => simp [takeValidated] at hg
  | cons p ps ih =>
    unfold takeValidated at hg
    split at hg
    · simp at hg
    · dsimp only at hg
      split at hg
      · rcases List.mem_cons.mp hg with h | h
        · rw [h]
          assumption
        · exact ih _ h
      · exact ih _ hg

/-- C6: with validation enabled, every tree emitted by `get_paths` has
all of its leaves (out-degree-zero nodes) flagged terminal; no emitted
tree contains a non-terminal leaf. -/
theorem get_paths_validated_leaves_terminal (t : Graph) (root : String)
    (md mt : Option Nat) (fuel : Nat) (g : Graph)
    (hg : g ∈ getPathsList t root md mt (some validatePath) fuel) :
    ∀ nd ∈ g.nodes, outDegree g nd.1 = 0 → terminalFlag nd.2 = true := by
  have hv : validatePath g = true :=
    mem_takeValidated_validates mt validatePath _ 0 g hg
  intro nd hnd hdeg
  unfold validatePath at hv
  rw [List.all_eq_true] at hv
  exact hv nd (List.mem_filter.mpr ⟨hnd, by simp [hdeg]⟩)

/-- C6 witness: `get_paths_validated_leaves_terminal` at the one-node
fixture tree `t6`, whose single enumerated path is `g6`. -/
theorem get_paths_validated_leaves_terminal_witness :
    g6 ∈ getPathsList t6 "C" none none (some validatePath) 1
    ∧ ∀ nd ∈ g6.nodes, outDegree g6 nd.1 = 0 → terminalFlag nd.2 = true :=
  ⟨by decide, get_paths_validated_leaves_terminal t6 "C" none none 1 g6 (by decide)⟩

/-! ### C7: the relevance-predict truncation bug -/

theorem cumsumFrom_le (l : List ℚ) (acc : ℚ) (hnn : ∀ x ∈ l, 0 ≤ x) :
    ∀ y ∈ cumsumFrom acc l, y ≤ acc + l.sum := by
  induction l generalizing acc with
  | nil => simp [cumsumFrom]
  | cons x xs ih =>
    intro y hy
    unfold cumsumFrom at hy
    rcases List.mem_cons.mp hy with h | h
    · rw [h, List.sum_cons]
      have hs : 0 ≤ xs.sum :=
        List.sum_nonneg (fun z hz => hnn z (List.mem_cons_of_mem x hz))
      linarith
    · have := ih (acc + x) (fun z hz => hnn z (List.mem_cons_of_mem x hz)) y h
      rw [List.sum_cons]
      linarith

/-- C7 (code bug): when no cumulative softmax probability strictly
exceeds `max_cum_prob` — in particular whenever `max_cum_prob ≥ 1`,
since softmax outputs are nonnegative and sum to 1 —
`np.argmax(np.cumsum(scores) > max_cum_prob)` returns 0 on the all-false
array, so `predict` returns *empty* score and index arrays instead of
the untruncated list promised by its docstring ("Scores and indices will
be returned up until max_cum_prob is exceeded"). -/
theorem predict_empty_when_cum_prob_unreachable (softmaxFn : List ℚ → List ℚ)
    (modelScores : List ℚ) (maxNum : Nat) (p : ℚ)
    (hnn : ∀ x ∈ softmaxFn (predictScoresSel modelScores maxNum), 0 ≤ x)
    (hsum : (softmaxFn (predictScoresSel modelScores maxNum)).sum ≤ p) :
    predictCore softmaxFn modelScores maxNum p = ([], []) := by
  have hidx : ((cumsumL (softmaxFn (predictScoresSel modelScores maxNum))).map
      (fun x => decide (p < x))).findIdx? (fun b => b) = none := by
    rw [List.findIdx?_eq_none_iff]
    intro b hb
    rcases List.mem_map.mp hb with ⟨y, hy, hby⟩
    have h1 : y ≤ 0 + (softmaxFn (predictScoresSel modelScores maxNum)).sum :=
      cumsumFrom_le _ 0 hnn y hy
    rw [zero_add] at h1
    rw [← hby]
    simp only [decide_eq_false_iff_not]
    exact not_lt_of_le (le_trans h1 hsum)
  have htr : npArgmaxBool ((cumsumL (softmaxFn (predictScoresSel modelScores maxNum))).map
      (fun x => decide (p < x))) = 0 := by
    unfold npArgmaxBool
    rw [hidx]
  simp only [predictCore, htr, List.take_zero]

/-- C7 witness: `predict_empty_when_cum_prob_unreachable` at the
concrete failing input: two equal model logits, `max_num_templates = 2`,
`max_cum_prob = 1`, with scipy softmax returning `[1/2, 1/2]`. -/
theorem predict_empty_when_cum_prob_unreachable_witness :
    (∀ x ∈ (fun l : List ℚ => l.map (fun _ => mkRat 1 2)) (predictScoresSel [0, 0] 2), 0 ≤ x)
    ∧ ((fun l : List ℚ => l.map (fun _ => mkRat 1 2)) (predictScoresSel [0, 0] 2)).sum ≤ 1
    ∧ predictCore (fun l : List ℚ => l.map (fun _ => mkRat 1 2)) [0, 0] 2 1 = ([], []) := by
  have hsel : predictScoresSel [0, 0] 2 = [0, 0] := by decide
  refine ⟨by decide, ?_, ?_⟩
  · show ((predictScoresSel [0, 0] 2).map (fun _ => mkRat 1 2)).sum ≤ 1
    rw [hsel]
    simp only [List.map_cons, List.map_nil, List.sum_cons, List.sum_nil]
    rw [Rat.mkRat_eq_div]
    norm_num
  · refine predict_empty_when_cum_prob_unreachable _ [0, 0] 2 1 (by decide) ?_
    show ((predictScoresSel [0, 0] 2).map (fun _ => mkRat 1 2)).sum ≤ 1
    rw [hsel]
    simp only [List.map_cons, List.map_nil, List.sum_cons, List.sum_nil]
    rw [Rat.mkRat_eq_div]
    norm_num

/-! ### C8: path ranking and the invalid-argument branches -/

theorem mem_insertDesc (key : α → ℚ) (x : α) (l : List α) (a : α) :
    a ∈ insertDesc key x l ↔ a = x ∨ a ∈ l := by
  induction l with
  | nil => simp [insertDesc]
  | cons y ys ih =>
    unfold insertDesc
    by_cases h : key y < key x
    · rw [if_pos h]
      simp [List.mem_cons]
    · rw [if_neg h]
      simp [List.mem_cons, ih]
      tauto

theorem insertDesc_pairwise (key : α → ℚ) (x : α) (l : List α)
    (h : l.Pairwise (fun a b => key b ≤ key a)) :
    (insertDesc key x l).Pairwise (fun a b => key b ≤ key a) := by
  induction l with
  | nil => simp [insertDesc]
  | cons y ys ih =>
    unfold insertDesc
    rcases List.pairwise_cons.mp h with ⟨hy, hys⟩
    by_cases hc : key y < key x
    · rw [if_pos hc]
      refine List.pairwise_cons.mpr ⟨?_, h⟩
      intro z hz
      rcases List.mem_cons.mp hz with hz | hz
      · rw [hz]
        exact le_of_lt hc
      · exact le_trans (hy z hz) (le_of_lt hc)
    · rw [if_neg hc]
      refine List.pairwise_cons.mpr ⟨?_, ih hys⟩
      intro z hz
      rcases (mem_insertDesc key x ys z).mp hz with hz | hz
      · rw [hz]
        exact le_of_not_lt hc
      · exact hy z hz

theorem sortDescBy_pairwise (key : α → ℚ) (l : List α) :
    (sortDescBy key l).Pairwise (fun a b => key b ≤ key a) := by
  unfold sortDescBy
  suffices h : ∀ acc : List α, acc.Pairwise (fun a b => key b ≤ key a) →
      (l.foldl (fun acc x => insertDesc key x acc) acc).Pairwise
        (fun a b => key b ≤ key a) by
    exact h [] (by simp)
  induction l with
  | nil =>
    intro acc hacc
    simpa using hacc
  | cons x xs ih =>
    intro acc hacc
    exact ih _ (insertDesc_pairwise key x acc hacc)

/-- C8: sorting with the 'plausibility' metric yields a sequence whose
per-tree product of reaction `ff_score`s is non-increasing, and both the
unrecognized-sorting-metric branch of `sort_paths` and the
unrecognized-path-format branch of `enumerate_paths` fail with a
`ValueError` whose message names the unsupported value. -/
theorem sort_paths_plausibility_and_error_naming {β : Type}
    (jsonConv : List Graph → List β) (paths : List Graph) (m fmt : String)
    (hm1 : m ≠ "plausibility") (hm2 : m ≠ "number_of_starting_materials")
    (hm3 : m ≠ "number_of_reactions") (hf1 : fmt ≠ "graph") (hf2 : fmt ≠ "json") :
    (∃ l, sortPaths paths "plausibility" = Except.ok l
       ∧ l.Pairwise (fun a b => overallPlausibility b ≤ overallPlausibility a))
    ∧ sortPaths paths m
        = Except.error ("Need something to sort by! Invalid option provided: " ++ m)
    ∧ formatPathsDispatch jsonConv fmt paths
        = Except.error ("Unrecognized format type " ++ fmt) := by
  refine ⟨⟨sortDescBy overallPlausibility paths, ?_, sortDescBy_pairwise _ _⟩, ?_, ?_⟩
  · simp [sortPaths]
  · unfold sortPaths
    rw [if_neg (by simp [hm1]), if_neg (by simp [hm2]), if_neg (by simp [hm3])]
  · unfold formatPathsDispatch
    rw [if_neg (by simp [hf1]), if_neg (by simp [hf2])]

/-- C8 witness: the theorem applied to two concrete one-reaction trees
and the unsupported metric `zzz` and format `yyy`. -/
theorem sort_paths_plausibility_and_error_naming_witness :
    ("zzz" : String) ≠ "plausibility"
    ∧ ("zzz" : String) ≠ "number_of_starting_materials"
    ∧ ("zzz" : String) ≠ "number_of_reactions"
    ∧ ("yyy" : String) ≠ "graph"
    ∧ ("yyy" : String) ≠ "json"
    ∧ ((∃ l, sortPaths [g8a, g8b] "plausibility" = Except.ok l
          ∧ l.Pairwise (fun a b => overallPlausibility b ≤ overallPlausibility a))
      ∧ sortPaths [g8a, g8b] "zzz"
          = Except.error ("Need something to sort by! Invalid option provided: " ++ "zzz")
      ∧ formatPathsDispatch (fun _ => ([] : List Unit)) "yyy" [g8a, g8b]
          = Except.error ("Unrecognized format type " ++ "yyy")) :=
  ⟨by decide, by decide, by decide, by decide, by decide,
    sort_paths_plausibility_and_error_naming (fun _ => ([] : List Unit)) [g8a, g8b]
      "zzz" "yyy" (by decide) (by decide) (by decide) (by decide) (by decide)⟩

/-! ### C9: every reaction node has one parent and at least one child -/

theorem gtFree_append (a b : String) : gtFree (a ++ b) = (gtFree a && gtFree b) := by
  unfold gtFree
  rw [String.data_append, List.all_append]

theorem gtFree_joinDot (rl : List String) (h : ∀ c ∈ rl, gtFree c = true) :
    gtFree (joinDot rl) = true := by
  induction rl with
  | nil => decide
  | cons c rest ih =>
    cases rest with
    | nil => exact h c (by simp)
    | cons d ds =>
      show gtFree (c ++ "." ++ joinDot (d :: ds)) = true
      rw [gtFree_append, gtFree_append]
      have h1 : gtFree c = true := h c (by simp)
      have h2 : gtFree (joinDot (d :: ds)) = true :=
        ih (fun x hx => h x (List.mem_cons_of_mem c hx))
      have h3 : gtFree "." = true := by decide
      rw [h1, h2, h3]
      rfl

theorem afterSep_append (a b : List Char) (h : ∀ c ∈ a, ¬c = '>') :
    afterSep (a ++ '>' :: '>' :: b) = b := by
  induction a with
  | nil =>
    show afterSep ('>' :: '>' :: b) = b
    unfold afterSep
    simp
  | cons c cs ih =>
    have hc : ¬c = '>' := h c (by simp)
    show afterSep (c :: (cs ++ '>' :: '>' :: b)) = b
    unfold afterSep
    rw [if_neg hc]
    exact ih (fun x hx => h x (List.mem_cons_of_mem c hx))

theorem productOf_reaction (a t : String) (ha : gtFree a = true) :
    productOf (a ++ ">>" ++ t) = t := by
  apply String.ext
  show afterSep (a ++ ">>" ++ t).data = t.data
  have hsep : (">>" : String).data = ['>', '>'] := rfl
  have hd : (a ++ ">>" ++ t).data = a.data ++ '>' :: '>' :: t.data := by
    rw [String.data_append, String.data_append, hsep, List.append_assoc]
    rfl
  rw [hd]
  apply afterSep_append
  intro c hc
  unfold gtFree at ha
  rw [List.all_eq_true] at ha
  simpa using ha c hc

theorem gtFree_reaction_false (a t : String) : gtFree (a ++ ">>" ++ t) = false := by
  unfold gtFree
  rw [String.data_append, String.data_append]
  have hsep : (">>" : String).data = ['>', '>'] := rfl
  rw [hsep, List.all_append, List.all_append]
  simp

theorem addEdge_mem_eq (g : Graph) (a b : String) (h : (a, b) ∈ g.edges) :
    addEdge g a b = g := by
  unfold addEdge
  rw [if_pos h]

theorem nodes_addEdge (g : Graph) (a b : String) : (addEdge g a b).nodes = g.nodes := by
  unfold addEdge
  split <;> rfl

theorem mem_edges_addEdge (g : Graph) (a b : String) : (a, b) ∈ (addEdge g a b).edges := by
  unfold addEdge
  split
  · assumption
  · simp

theorem edges_subset_addEdge (g : Graph) (a b : String) (e : String × String)
    (h : e ∈ g.edges) : e ∈ (addEdge g a b).edges := by
  unfold addEdge
  split
  · exact h
  · simp [h]

theorem mem_addEdge_cases (g : Graph) (a b : String) (e : String × String)
    (h : e ∈ (addEdge g a b).edges) : e ∈ g.edges ∨ e = (a, b) := by
  unfold addEdge at h
  split at h
  · exact Or.inl h
  · rcases List.mem_append.mp h with h1 | h1
    · exact Or.inl h1
    · exact Or.inr (by simpa using h1)

theorem successors_addEdge_ne (g : Graph) (a b n : String) (h : n ≠ a) :
    successors (addEdge g a b) n = successors g n := by
  unfold addEdge successors
  split
  · rfl
  · rw [List.filter_append]
    have hone : (([(a, b)] : List (String × String)).filter (fun e => e.1 == n)) = [] := by
      simp [Ne.symm h]
    rw [hone, List.append_nil]

theorem successors_addEdge_self_new (g : Graph) (a b : String) (h : (a, b) ∉ g.edges) :
    successors (addEdge g a b) a = successors g a ++ [b] := by
  unfold addEdge successors
  rw [if_neg h, List.filter_append]
  simp

theorem predecessors_addEdge_ne (g : Graph) (a b n : String) (h : n ≠ b) :
    predecessors (addEdge g a b) n = predecessors g n := by
  unfold addEdge predecessors
  split
  · rfl
  · rw [List.filter_append]
    have hone : (([(a, b)] : List (String × String)).filter (fun e => e.2 == n)) = [] := by
      simp [Ne.symm h]
    rw [hone, List.append_nil]

theorem predecessors_addEdge_self_new (g : Graph) (a b : String) (h : (a, b) ∉ g.edges) :
    predecessors (addEdge g a b) b = predecessors g b ++ [a] := by
  unfold addEdge predecessors
  rw [if_neg h, List.filter_append]
  simp

theorem mem_successors_iff (g : Graph) (a b : String) :
    b ∈ successors g a ↔ (a, b) ∈ g.edges := by
  unfold successors
  constructor
  · intro h
    rcases List.mem_map.mp h with ⟨e, he, heb⟩
    have hmem := (List.mem_filter.mp he).1
    have h1 : e.1 = a := by simpa using (List.mem_filter.mp he).2
    have heq : e = (a, b) := by
      cases e
      simp only [Prod.mk.injEq]
      exact ⟨h1, heb⟩
    rw [← heq]
    exact hmem
  · intro h
    exact List.mem_map.mpr ⟨(a, b), List.mem_filter.mpr ⟨h, by simp⟩, rfl⟩

theorem predecessors_eq_single_mem (g : Graph) (r p : String)
    (h : predecessors g r = [p]) : (p, r) ∈ g.edges := by
  have hp : p ∈ predecessors g r := by
    rw [h]
    simp
  unfold predecessors at hp
  rcases List.mem_map.mp hp with ⟨e, he, hep⟩
  have hmem := (List.mem_filter.mp he).1
  have h2 : e.2 = r := by simpa using (List.mem_filter.mp he).2
  have heq : e = (p, r) := by
    cases e
    simp only [Prod.mk.injEq]
    exact ⟨hep, h2⟩
  rw [← heq]
  exact hmem

theorem foldl_addEdge_nodes (g : Graph) (src : String) (cs : List String) :
    (cs.foldl (fun h c => addEdge h src c) g).nodes = g.nodes := by
  induction cs generalizing g with
  | nil => rfl
  | cons c rest ih => rw [List.foldl_cons, ih, nodes_addEdge]

theorem foldl_addEdge_edges_mono (g : Graph) (src : String) (cs : List String)
    (e : String × String) (h : e ∈ g.edges) :
    e ∈ (cs.foldl (fun h c => addEdge h src c) g).edges := by
  induction cs generalizing g with
  | nil => exact h
  | cons c rest ih =>
    rw [List.foldl_cons]
    exact ih (addEdge g src c) (edges_subset_addEdge g src c e h)

theorem foldl_addEdge_edges_cases (g : Graph) (src : String) (cs : List String)
    (e : String × String)
    (h : e ∈ (cs.foldl (fun h c => addEdge h src c) g).edges) :
    e ∈ g.edges ∨ (e.1 = src ∧ e.2 ∈ cs) := by
  induction cs generalizing g with
  | nil => exact Or.inl h
  | cons c rest ih =>
    rw [List.foldl_cons] at h
    rcases ih (addEdge g src c) h with hh | hh
    · rcases mem_addEdge_cases g src c e hh with h1 | h1
      · exact Or.inl h1
      · rw [h1]
        exact Or.inr ⟨rfl, by simp⟩
    · exact Or.inr ⟨hh.1, List.mem_cons_of_mem c hh.2⟩

theorem foldl_addEdge_predecessors (g : Graph) (src : String) (cs : List String)
    (n : String) (h : n ∉ cs) :
    predecessors (cs.foldl (fun h c => addEdge h src c) g) n = predecessors g n := by
  induction cs generalizing g with
  | nil => rfl
  | cons c rest ih =>
    have h1 : n ≠ c := fun hc => h (by simp [hc])
    have h2 : n ∉ rest := fun hc => h (List.mem_cons_of_mem c hc)
    rw [List.foldl_cons, ih (addEdge g src c) h2, predecessors_addEdge_ne g src c n h1]

theorem foldl_addEdge_successors_ne (g : Graph) (src : String) (cs : List String)
    (n : String) (h : n ≠ src) :
    successors (cs.foldl (fun h c => addEdge h src c) g) n = successors g n := by
  induction cs generalizing g with
  | nil => rfl
  | cons c rest ih =>
    rw [List.foldl_cons, ih (addEdge g src c), successors_addEdge_ne g src c n h]

theorem foldl_addEdge_head_mem (g : Graph) (src : String) (c : String) (cs : List String) :
    (src, c) ∈ ((c :: cs).foldl (fun h c => addEdge h src c) g).edges := by
  rw [List.foldl_cons]
  exact foldl_addEdge_edges_mono (addEdge g src c) src cs (src, c) (mem_edges_addEdge g src c)

theorem rxnInv_of_eq {s s' : MCTSState} (h : RxnParentChildInv s)
    (he : s'.tree.edges = s.tree.edges) (hr : s'.reactions = s.reactions) :
    RxnParentChildInv s' := by
  intro r hrm
  rw [hr] at hrm
  obtain ⟨h1, h2, h3⟩ := h r hrm
  refine ⟨h1, ?_, ?_⟩
  · rw [predecessors_eq_of_edges he, h2]
  · rw [outDegree_eq_of_edges he]
    exact h3

theorem edgeWf_of_extend {s s' : MCTSState} (h : EdgeTargetsWf s)
    (he : s'.tree.edges = s.tree.edges) (hr : s'.reactions = s.reactions)
    (extra : List String) (hc : s'.chemicals = s.chemicals ++ extra)
    (hex : ∀ c ∈ extra, gtFree c = true) :
    EdgeTargetsWf s' := by
  constructor
  · intro e he'
    rw [he] at he'
    rcases h.1 e he' with hch | hrx
    · exact Or.inl (by rw [hc]; exact List.mem_append_left _ hch)
    · exact Or.inr (by rw [hr]; exact hrx)
  · intro c hcm
    rw [hc] at hcm
    rcases List.mem_append.mp hcm with hcm | hcm
    · exact h.2 c hcm
    · exact hex c hcm

theorem updateValue_frame (s : MCTSState) (r : String) :
    (updateValue s r).tree.edges = s.tree.edges
    ∧ (updateValue s r).chemicals = s.chemicals
    ∧ (updateValue s r).reactions = s.reactions := by
  unfold updateValue
  split
  · split <;> exact ⟨rfl, rfl, rfl⟩
  · exact ⟨rfl, rfl, rfl⟩

theorem mem_predecessors_iff (g : Graph) (a b : String) :
    a ∈ predecessors g b ↔ (a, b) ∈ g.edges := by
  unfold predecessors
  constructor
  · intro h
    rcases List.mem_map.mp h with ⟨e, he, hea⟩
    have hmem := (List.mem_filter.mp he).1
    have h2 : e.2 = b := by simpa using (List.mem_filter.mp he).2
    have heq : e = (a, b) := by
      cases e
      simp only [Prod.mk.injEq]
      exact ⟨hea, h2⟩
    rw [← heq]
    exact hmem
  · intro h
    exact List.mem_map.mpr ⟨(a, b), List.mem_filter.mpr ⟨h, by simp⟩, rfl⟩

theorem outDegree_le_addEdge (g : Graph) (a b n : String) :
    outDegree g n ≤ outDegree (addEdge g a b) n := by
  unfold outDegree
  by_cases hn : n = a
  · subst hn
    by_cases hmem : (n, b) ∈ g.edges
    · rw [addEdge_mem_eq g n b hmem]
    · rw [successors_addEdge_self_new g n b hmem]
      simp
  · rw [successors_addEdge_ne g a b n hn]

theorem foldl_addEdge_outDegree_mono (g : Graph) (src : String) (cs : List String)
    (n : String) :
    outDegree g n ≤ outDegree (cs.foldl (fun h c => addEdge h src c) g) n := by
  induction cs generalizing g with
  | nil => exact le_refl _
  | cons c rest ih =>
    rw [List.foldl_cons]
    exact le_trans (outDegree_le_addEdge g src c n) (ih (addEdge g src c))

theorem processReactants_inv (opts : Opts) (collab : Collab) (target : String)
    (path : List String) (rl : List String) (s : MCTSState)
    (hinv : RxnParentChildInv s) (hwf : EdgeTargetsWf s)
    (hgt : ∀ c ∈ rl, gtFree c = true) :
    RxnParentChildInv (processReactants opts collab s target path rl).1
    ∧ EdgeTargetsWf (processReactants opts collab s target path rl).1 := by
  induction rl generalizing s with
  | nil => exact ⟨hinv, hwf⟩
  | cons c rest ih =>
    unfold processReactants
    by_cases h1 : s.chemicals.contains c
    · rw [if_pos h1]
      by_cases h2 : (path.contains c || hasPathB s.tree c target) = true
      · rw [if_pos h2]
        exact ⟨hinv, hwf⟩
      · rw [if_neg h2]
        exact ih s hinv hwf (fun x hx => hgt x (List.mem_cons_of_mem c hx))
    · rw [if_neg h1]
      obtain ⟨he, hr, hc⟩ := createChemicalNode_frame opts collab s c
      have hinv' := rxnInv_of_eq hinv he hr
      have hwf' := edgeWf_of_extend hwf he hr [c] hc
        (fun x hx => by rw [List.mem_singleton.mp hx]; exact hgt c (by simp))
      exact ih _ hinv' hwf' (fun x hx => hgt x (List.mem_cons_of_mem c hx))

theorem processReactants_chemicals_mono (opts : Opts) (collab : Collab)
    (target : String) (path : List String) (rl : List String) (s : MCTSState)
    (c : String) (h : c ∈ s.chemicals) :
    c ∈ (processReactants opts collab s target path rl).1.chemicals := by
  obtain ⟨-, -, extra, hex⟩ := processReactants_frame opts collab target path rl s
  rw [hex]
  exact List.mem_append_left _ h

theorem processReactants_complete_mem (opts : Opts) (collab : Collab)
    (target : String) (path : List String) (rl : List String) (s : MCTSState)
    (h : (processReactants opts collab s target path rl).2 = true) :
    ∀ c ∈ rl, c ∈ (processReactants opts collab s target path rl).1.chemicals := by
  induction rl generalizing s with
  | nil => simp
  | cons c rest ih =>
    intro x hx
    unfold processReactants at h ⊢
    by_cases h1 : s.chemicals.contains c
    · rw [if_pos h1] at h ⊢
      by_cases h2 : (path.contains c || hasPathB s.tree c target) = true
      · rw [if_pos h2] at h
        simp at h
      · rw [if_neg h2] at h ⊢
        rcases List.mem_cons.mp hx with hx | hx
        · rw [hx]
          exact processReactants_chemicals_mono opts collab target path rest s c
            (by simpa using h1)
        · exact ih s h x hx
    · rw [if_neg h1] at h ⊢
      rcases List.mem_cons.mp hx with hx | hx
      · rw [hx]
        apply processReactants_chemicals_mono
        obtain ⟨-, -, hc⟩ := createChemicalNode_frame opts collab s c
        rw [hc]
        simp
      · exact ih _ h x hx

theorem foldl_addEdge_mem_of_mem (g : Graph) (src : String) (cs : List String)
    (c : String) (h : c ∈ cs) :
    (src, c) ∈ (cs.foldl (fun h c => addEdge h src c) g).edges := by
  induction cs generalizing g with
  | nil => simp at h
  | cons d rest ih =>
    rw [List.foldl_cons]
    rcases List.mem_cons.mp h with h | h
    · subst h
      exact foldl_addEdge_edges_mono _ _ _ _ (mem_edges_addEdge g src c)
    · exact ih (addEdge g src d) h

/-- Invariant preservation through the edge-adding and value-update
stage of `registerReaction`, stated over the intermediate state `A`
produced by the merge-or-create step. -/
theorem register_core_inv (A : MCTSState) (target rs : String) (rl : List String)
    (hrsmem : rs ∈ A.reactions)
    (hAgt : ∀ r ∈ A.reactions, gtFree r = false)
    (hAold : ∀ r ∈ A.reactions, r ≠ rs →
        predecessors A.tree r = [productOf r] ∧ 1 ≤ outDegree A.tree r)
    (hps : predecessors (addEdge A.tree target rs) rs = [target])
    (hAwf : ∀ e ∈ A.tree.edges, e.2 ∈ A.chemicals ∨ e.2 ∈ A.reactions)
    (hAch : ∀ c ∈ A.chemicals, gtFree c = true)
    (hmem : ∀ c ∈ rl, c ∈ A.chemicals)
    (hprod : productOf rs = target)
    (hrsf : gtFree rs = false)
    (htar : gtFree target = true)
    (hrl : rl ≠ [])
    (hrlg : ∀ c ∈ rl, gtFree c = true) :
    RxnParentChildInv (updateValue
      { A with tree := rl.foldl (fun g c => addEdge g rs c) (addEdge A.tree target rs) } rs)
    ∧ EdgeTargetsWf (updateValue
      { A with tree := rl.foldl (fun g c => addEdge g rs c) (addEdge A.tree target rs) } rs) := by
  have hrs_rl : rs ∉ rl := by
    intro hin
    rw [hrlg rs hin] at hrsf
    exact Bool.noConfusion hrsf
  have hinvC : RxnParentChildInv
      { A with tree := rl.foldl (fun g c => addEdge g rs c) (addEdge A.tree target rs) } := by
    intro r hr
    have hgt := hAgt r hr
    have hr_rl : r ∉ rl := by
      intro hin
      rw [hrlg r hin] at hgt
      exact Bool.noConfusion hgt
    by_cases hreq : r = rs
    · subst hreq
      refine ⟨hgt, ?_, ?_⟩
      · show predecessors (rl.foldl (fun g c => addEdge g r c) (addEdge A.tree target r)) r
          = [productOf r]
        rw [foldl_addEdge_predecessors _ _ _ _ hr_rl, hps, hprod]
      · show 1 ≤ outDegree (rl.foldl (fun g c => addEdge g r c) (addEdge A.tree target r)) r
        cases rl with
        | nil => exact absurd rfl hrl
        | cons c cs =>
          have hmem' : (r, c) ∈ ((c :: cs).foldl (fun g x => addEdge g r x)
              (addEdge A.tree target r)).edges :=
            foldl_addEdge_head_mem (addEdge A.tree target r) r c cs
          have hsucc : c ∈ successors ((c :: cs).foldl (fun g x => addEdge g r x)
              (addEdge A.tree target r)) r :=
            (mem_successors_iff _ _ _).mpr hmem'
          exact List.length_pos_of_mem hsucc
    · obtain ⟨hpid, houtd⟩ := hAold r hr hreq
      have hrt : r ≠ target := by
        intro he
        rw [he, htar] at hgt
        exact Bool.noConfusion hgt
      refine ⟨hgt, ?_, ?_⟩
      · show predecessors (rl.foldl (fun g c => addEdge g rs c) (addEdge A.tree target rs)) r
          = [productOf r]
        rw [foldl_addEdge_predecessors _ _ _ _ hr_rl,
          predecessors_addEdge_ne _ _ _ _ hreq, hpid]
      · show 1 ≤ (successors (rl.foldl (fun g c => addEdge g rs c)
          (addEdge A.tree target rs)) r).length
        rw [foldl_addEdge_successors_ne _ _ _ _ hreq, successors_addEdge_ne _ _ _ _ hrt]
        exact houtd
  have hwfC : EdgeTargetsWf
      { A with tree := rl.foldl (fun g c => addEdge g rs c) (addEdge A.tree target rs) } := by
    constructor
    · intro e he
      rcases foldl_addEdge_edges_cases _ _ _ _ he with h1 | h1
      · rcases mem_addEdge_cases _ _ _ _ h1 with h2 | h2
        · exact hAwf e h2
        · rw [h2]
          exact Or.inr hrsmem
      · exact Or.inl (hmem e.2 h1.2)
    · exact hAch
  obtain ⟨hue, huc, hur⟩ := updateValue_frame
    { A with tree := rl.foldl (fun g c => addEdge g rs c) (addEdge A.tree target rs) } rs
  exact ⟨rxnInv_of_eq hinvC hue hur,
    edgeWf_of_extend hwfC hue hur [] (by rw [huc, List.append_nil]) (by simp)⟩

theorem registerReaction_inv (opts : Opts) (collab : Collab) (s' : MCTSState)
    (target : String) (template : Nat) (rl : List String)
    (hinv : RxnParentChildInv s') (hwf : EdgeTargetsWf s')
    (htar : gtFree target = true) (hrl : rl ≠ [])
    (hrlg : ∀ c ∈ rl, gtFree c = true)
    (hmem : ∀ c ∈ rl, c ∈ s'.chemicals) :
    RxnParentChildInv (registerReaction opts collab s' target template rl)
    ∧ EdgeTargetsWf (registerReaction opts collab s' target template rl) := by
  set rs := joinDot rl ++ ">>" ++ target with hrsdef
  set tsc := tmplProb (chemDataOf s'.tree target).templates template with htsc
  have hrsf : gtFree rs = false := gtFree_reaction_false _ _
  have hprod : productOf rs = target := productOf_reaction _ _ (gtFree_joinDot rl hrlg)
  by_cases hmerge : s'.reactions.contains rs
  · -- the reaction already exists: merge templates
    have hrsmem : rs ∈ s'.reactions := by simpa using hmerge
    have hpred' : predecessors s'.tree rs = [target] := by
      rw [(hinv _ hrsmem).2.1, hprod]
    have hedge := predecessors_eq_single_mem _ _ _ hpred'
    set A : MCTSState := { s' with tree := updateNode s'.tree rs (mergeRxnData template tsc) }
      with hA
    have hres := register_core_inv A target rs rl
      hrsmem
      (fun r hr => (hinv r hr).1)
      (fun r hr _ => ⟨(hinv r hr).2.1, (hinv r hr).2.2⟩)
      (by rw [addEdge_mem_eq A.tree target rs hedge]; exact hpred')
      (fun e he => hwf.1 e he)
      hwf.2 hmem hprod hrsf htar hrl hrlg
    have hbody : registerReaction opts collab s' target template rl
        = updateValue { A with tree := rl.foldl (fun g c => addEdge g rs c) (addEdge A.tree target rs) } rs := by
      simp only [registerReaction]
      rw [← hrsdef, if_pos hmerge]
    rw [hbody]
    exact hres
  · -- the reaction is new: create the node
    set ffv := collab.fastFilter (joinDot rl) target with hffv
    have hnotmem : rs ∉ s'.reactions := by simpa using hmerge
    have hpnil : predecessors s'.tree rs = [] := by
      rw [List.eq_nil_iff_forall_not_mem]
      intro a ha
      have hedge := (mem_predecessors_iff _ _ _).mp ha
      rcases hwf.1 _ hedge with hch | hrx
      · have hg := hwf.2 _ hch
        rw [hg] at hrsf
        exact Bool.noConfusion hrsf
      · exact hnotmem hrx
    set A : MCTSState := createReactionNode s' rs template tsc ffv with hA
    have hAe : A.tree.edges = s'.tree.edges := by
      rw [hA]
      unfold createReactionNode
      exact edges_setNode _ _ _
    have hnedge : (target, rs) ∉ A.tree.edges := by
      rw [hAe]
      intro hc
      have hmm : target ∈ predecessors s'.tree rs := (mem_predecessors_iff _ _ _).mpr hc
      rw [hpnil] at hmm
      simp at hmm
    have hres := register_core_inv A target rs rl
      (by rw [hA]; show rs ∈ s'.reactions ++ [rs]; simp)
      (by
        intro r hr
        rw [hA] at hr
        rcases List.mem_append.mp hr with hr | hr
        · exact (hinv r hr).1
        · rw [List.mem_singleton.mp hr]
          exact hrsf)
      (by
        intro r hr hne
        rw [hA] at hr
        rcases List.mem_append.mp hr with hr | hr
        · refine ⟨?_, ?_⟩
          · rw [predecessors_eq_of_edges hAe]
            exact (hinv r hr).2.1
          · show 1 ≤ outDegree A.tree r
            rw [outDegree_eq_of_edges hAe]
            exact (hinv r hr).2.2
        · exact absurd (List.mem_singleton.mp hr) hne)
      (by
        rw [predecessors_addEdge_self_new _ _ _ hnedge, predecessors_eq_of_edges hAe, hpnil]
        rfl)
      (by
        intro e he
        rw [hAe] at he
        rcases hwf.1 e he with hch | hrx
        · exact Or.inl hch
        · refine Or.inr ?_
          rw [hA]
          show e.2 ∈ s'.reactions ++ [rs]
          exact List.mem_append_left _ hrx)
      hwf.2 hmem hprod hrsf htar hrl hrlg
    have hbody : registerReaction opts collab s' target template rl
        = updateValue { A with tree := rl.foldl (fun g c => addEdge g rs c) (addEdge A.tree target rs) } rs := by
      simp only [registerReaction]
      rw [← hrsdef, if_neg hmerge]
    rw [hbody]
    exact hres

theorem processOneSet_inv (opts : Opts) (collab : Collab) (s : MCTSState)
    (target : String) (template : Nat) (path : List String) (rl : List String)
    (hinv : RxnParentChildInv s) (hwf : EdgeTargetsWf s)
    (htar : gtFree target = true) (hrl : rl ≠ [])
    (hrlg : ∀ c ∈ rl, gtFree c = true) :
    RxnParentChildInv (processOneSet opts collab s target template path rl)
    ∧ EdgeTargetsWf (processOneSet opts collab s target template path rl) := by
  unfold processOneSet
  by_cases hff : collab.fastFilter (joinDot rl) target < opts.fastFilterThreshold
  · rw [if_pos hff]
    exact ⟨hinv, hwf⟩
  rw [if_neg hff]
  by_cases hbr : opts.bannedReactions.contains (joinDot rl ++ ">>" ++ target)
  · rw [if_pos hbr]
    exact ⟨hinv, hwf⟩
  rw [if_neg hbr]
  by_cases hbc : rl.any (fun r => opts.bannedChemicals.contains r)
  · rw [if_pos hbc]
    exact ⟨hinv, hwf⟩
  rw [if_neg hbc]
  obtain ⟨hpinv, hpwf⟩ := processReactants_inv opts collab target path rl s hinv hwf hrlg
  have hcomp := processReactants_complete_mem opts collab target path rl s
  rcases hpr : processReactants opts collab s target path rl with ⟨s', b⟩
  rw [hpr] at hpinv hpwf hcomp
  cases b with
  | false => exact ⟨hpinv, hpwf⟩
  | true =>
    exact registerReaction_inv opts collab s' target template rl hpinv hpwf htar hrl hrlg
      (hcomp rfl)

/-- C9: `_process_precursors` preserves the invariant that every
registered reaction node has exactly one parent chemical — the product
encoded after the `>>` of its reaction smiles — and at least one
precursor child.  The hypotheses say that molecule smiles contain no
`>` (so the reaction-smiles encoding is unambiguous), that candidate
precursor sets are nonempty, and that edges point only at registered
nodes; all are maintained by the tree builder itself, starting from the
empty initial tree where the invariant holds vacuously. -/
theorem process_precursors_reaction_parent_child (opts : Opts) (collab : Collab)
    (s : MCTSState) (target : String) (template : Nat)
    (precursors : List (List String)) (path : List String)
    (hinv : RxnParentChildInv s) (hwf : EdgeTargetsWf s)
    (htar : gtFree target = true)
    (hpre : ∀ rl ∈ precursors, rl ≠ [] ∧ ∀ c ∈ rl, gtFree c = true) :
    RxnParentChildInv (processPrecursors opts collab s target template precursors path)
    ∧ EdgeTargetsWf (processPrecursors opts collab s target template precursors path) := by
  induction precursors generalizing s with
  | nil => exact ⟨hinv, hwf⟩
  | cons rl rest ih =>
    unfold processPrecursors
    rw [List.foldl_cons]
    obtain ⟨h1, h2⟩ := processOneSet_inv opts collab s target template path rl hinv hwf htar
      (hpre rl (by simp)).1 (hpre rl (by simp)).2
    exact ih (processOneSet opts collab s target template path rl) h1 h2
      (fun rl' hrl' => hpre rl' (List.mem_cons_of_mem rl hrl'))

/-- C9 witness: the invariant theorem applied to the fixture `st9`
(a lone root chemical) expanded with the fresh precursor set `[CC]`. -/
theorem process_precursors_reaction_parent_child_witness :
    RxnParentChildInv st9
    ∧ EdgeTargetsWf st9
    ∧ gtFree "CCO" = true
    ∧ (∀ rl ∈ [["CC"]], rl ≠ [] ∧ ∀ c ∈ rl, gtFree c = true)
    ∧ (RxnParentChildInv (processPrecursors baseOpts collab5 st9 "CCO" 0 [["CC"]] ["CCO"])
      ∧ EdgeTargetsWf (processPrecursors baseOpts collab5 st9 "CCO" 0 [["CC"]] ["CCO"])) :=
  ⟨by unfold RxnParentChildInv; decide, by unfold EdgeTargetsWf; decide, by decide, by decide,
    process_precursors_reaction_parent_child baseOpts collab5 st9 "CCO" 0 [["CC"]] ["CCO"]
      (by unfold RxnParentChildInv; decide) (by unfold EdgeTargetsWf; decide)
      (by decide) (by decide)⟩

/-! ### Solved-flag bookkeeping across a whole `_update` pass -/

theorem chemSolvedCached_eq_of (t : Graph) (c : String) :
    chemSolvedCached t c = ((lookupNode t c).map chemSolvedOf).getD false := by
  unfold chemSolvedCached chemDataOf
  cases h : lookupNode t c with
  | none => rfl
  | some nd => cases nd <;> rfl

theorem rxnSolvedCached_eq_of (t : Graph) (r : String) :
    rxnSolvedCached t r = ((lookupNode t r).map rxnSolvedOf).getD false := by
  unfold rxnSolvedCached rxnDataOf
  cases h : lookupNode t r with
  | none => rfl
  | some nd => cases nd <;> rfl

theorem chemSolvedCached_updateNode_pres (g : Graph) (k : String)
    (f : NodeData → NodeData) (x : String)
    (hf : ∀ nd, chemSolvedOf (f nd) = chemSolvedOf nd) :
    chemSolvedCached (updateNode g k f) x = chemSolvedCached g x := by
  rw [chemSolvedCached_eq_of, chemSolvedCached_eq_of, lookupNode_updateNode]
  by_cases h : x = k
  · rw [if_pos h, h]
    cases lookupNode g k with
    | none => rfl
    | some nd => simp [hf nd]
  · rw [if_neg h]

theorem rxnSolvedCached_updateNode_pres (g : Graph) (k : String)
    (f : NodeData → NodeData) (x : String)
    (hf : ∀ nd, rxnSolvedOf (f nd) = rxnSolvedOf nd) :
    rxnSolvedCached (updateNode g k f) x = rxnSolvedCached g x := by
  rw [rxnSolvedCached_eq_of, rxnSolvedCached_eq_of, lookupNode_updateNode]
  by_cases h : x = k
  · rw [if_pos h, h]
    cases lookupNode g k with
    | none => rfl
    | some nd => simp [hf nd]
  · rw [if_neg h]

theorem chemSolvedCached_updateNode_ne (g : Graph) (k : String)
    (f : NodeData → NodeData) (x : String) (h : x ≠ k) :
    chemSolvedCached (updateNode g k f) x = chemSolvedCached g x := by
  unfold chemSolvedCached chemDataOf
  rw [lookupNode_updateNode_ne _ _ _ _ h]

theorem rxnSolvedCached_updateNode_ne (g : Graph) (k : String)
    (f : NodeData → NodeData) (x : String) (h : x ≠ k) :
    rxnSolvedCached (updateNode g k f) x = rxnSolvedCached g x := by
  unfold rxnSolvedCached rxnDataOf
  rw [lookupNode_updateNode_ne _ _ _ _ h]

theorem rxnSolvedCached_updateNode_self_rxn (g : Graph) (k : String)
    (f : NodeData → NodeData) (rd : RxnData)
    (h : lookupNode g k = some (NodeData.rxn rd)) :
    rxnSolvedCached (updateNode g k f) k = rxnSolvedOf (f (NodeData.rxn rd)) := by
  rw [rxnSolvedCached_eq_of, lookupNode_updateNode_self, h]
  rfl

theorem lookupNode_rxn_updateNode (g : Graph) (k x : String) (f : NodeData → NodeData)
    (hf : ∀ d, ∃ d2, f (NodeData.rxn d) = NodeData.rxn d2)
    (h : ∃ rd, lookupNode g x = some (NodeData.rxn rd)) :
    ∃ rd, lookupNode (updateNode g k f) x = some (NodeData.rxn rd) := by
  rcases h with ⟨rd, hrd⟩
  rw [lookupNode_updateNode]
  by_cases hk : x = k
  · rw [if_pos hk, ← hk, hrd]
    rcases hf rd with ⟨d2, hd2⟩
    exact ⟨d2, by simp [hd2]⟩
  · rw [if_neg hk]
    exact ⟨rd, hrd⟩

/-- `_update_value` touches no chemical solved flag other than the
reaction's first predecessor. -/
theorem updateValue_chemSolved_frame (s : MCTSState) (r x : String)
    (hx : ∀ p, (predecessors s.tree r).head? = some p → x ≠ p) :
    chemSolvedCached (updateValue s r).tree x = chemSolvedCached s.tree x := by
  unfold updateValue
  cases hlk : lookupNode s.tree r with
  | none => rfl
  | some nd =>
    cases nd with
    | chem d => rfl
    | rxn rd =>
      dsimp only
      cases hhd : (predecessors s.tree r).head? with
      | none =>
        dsimp only
        exact chemSolvedCached_updateNode_pres _ _ _ _ (fun nd => by cases nd <;> rfl)
      | some p =>
        dsimp only
        rw [chemSolvedCached_updateNode_ne _ _ _ _ (hx p hhd)]
        exact chemSolvedCached_updateNode_pres _ _ _ _ (fun nd => by cases nd <;> rfl)

/-- `_update_value` touches no reaction solved flag other than its own
argument's. -/
theorem updateValue_rxnSolved_frame (s : MCTSState) (r x : String) (hx : x ≠ r) :
    rxnSolvedCached (updateValue s r).tree x = rxnSolvedCached s.tree x := by
  unfold updateValue
  cases hlk : lookupNode s.tree r with
  | none => rfl
  | some nd =>
    cases nd with
    | chem d => rfl
    | rxn rd =>
      dsimp only
      cases hhd : (predecessors s.tree r).head? with
      | none =>
        dsimp only
        exact rxnSolvedCached_updateNode_ne _ _ _ _ hx
      | some p =>
        dsimp only
        refine Eq.trans (rxnSolvedCached_updateNode_pres _ _ _ _ ?hg) ?h2
        case hg => intro nd; cases nd <;> rfl
        case h2 => exact rxnSolvedCached_updateNode_ne _ _ _ _ hx

theorem updateValue_rxn_kind (s : MCTSState) (r x : String)
    (h : ∃ rd, lookupNode s.tree x = some (NodeData.rxn rd)) :
    ∃ rd, lookupNode (updateValue s r).tree x = some (NodeData.rxn rd) := by
  unfold updateValue
  cases hlk : lookupNode s.tree r with
  | none => exact h
  | some nd =>
    cases nd with
    | chem d => exact h
    | rxn rd =>
      dsimp only
      cases hhd : (predecessors s.tree r).head? with
      | none =>
        dsimp only
        refine lookupNode_rxn_updateNode _ _ _ _ ?hfa h
        intro d
        exact ⟨_, rfl⟩
      | some p =>
        dsimp only
        refine lookupNode_rxn_updateNode _ _ _ _ ?hgb ?inner
        case hgb => intro d; exact ⟨d, rfl⟩
        case inner =>
          refine lookupNode_rxn_updateNode _ _ _ _ ?hfb h
          intro d
          exact ⟨_, rfl⟩

theorem updateStep_edges (opts : Opts) (s : MCTSState) (i : Nat) (c : String)
    (o : Option String) : (updateStep opts s i c o).tree.edges = s.tree.edges := by
  cases o with
  | none => rfl
  | some r =>
    unfold updateStep isChemicalDoneUpdate
    dsimp only
    rw [(updateValue_frame _ r).1]
    rfl

/-- One `_update` step changes no chemical solved flag other than the
first predecessor of its reaction argument. -/
theorem updateStep_chemSolved_frame (opts : Opts) (s : MCTSState) (i : Nat) (c : String)
    (o : Option String) (x : String)
    (hx : ∀ r, o = some r → ∀ p, (predecessors s.tree r).head? = some p → x ≠ p) :
    chemSolvedCached (updateStep opts s i c o).tree x = chemSolvedCached s.tree x := by
  cases o with
  | none =>
    unfold updateStep isChemicalDoneUpdate
    dsimp only
    refine Eq.trans (chemSolvedCached_updateNode_pres _ _ _ _ ?hf1)
      (chemSolvedCached_updateNode_pres _ _ _ _ ?hf2)
    case hf1 => intro nd; cases nd <;> rfl
    case hf2 => intro nd; cases nd <;> rfl
  | some r =>
    unfold updateStep isChemicalDoneUpdate
    dsimp only
    refine Eq.trans (updateValue_chemSolved_frame _ r x ?hh)
      (Eq.trans (chemSolvedCached_updateNode_pres _ _ _ _ ?hf1)
        (Eq.trans (chemSolvedCached_updateNode_pres _ _ _ _ ?hf2)
          (chemSolvedCached_updateNode_pres _ _ _ _ ?hf3)))
    case hh => exact hx r rfl
    case hf1 => intro nd; cases nd <;> rfl
    case hf2 => intro nd; cases nd <;> rfl
    case hf3 => intro nd; cases nd <;> rfl

/-- One `_update` step changes no reaction solved flag other than its
own reaction argument's. -/
theorem updateStep_rxnSolved_frame (opts : Opts) (s : MCTSState) (i : Nat) (c : String)
    (o : Option String) (x : String) (hx : ∀ r, o = some r → x ≠ r) :
    rxnSolvedCached (updateStep opts s i c o).tree x = rxnSolvedCached s.tree x := by
  cases o with
  | none =>
    unfold updateStep isChemicalDoneUpdate
    dsimp only
    refine Eq.trans (rxnSolvedCached_updateNode_pres _ _ _ _ ?hf1)
      (rxnSolvedCached_updateNode_pres _ _ _ _ ?hf2)
    case hf1 => intro nd; cases nd <;> rfl
    case hf2 => intro nd; cases nd <;> rfl
  | some r =>
    unfold updateStep isChemicalDoneUpdate
    dsimp only
    refine Eq.trans (updateValue_rxnSolved_frame _ r x (hx r rfl))
      (Eq.trans (rxnSolvedCached_updateNode_pres _ _ _ _ ?hf1)
        (Eq.trans (rxnSolvedCached_updateNode_pres _ _ _ _ ?hf2)
          (rxnSolvedCached_updateNode_pres _ _ _ _ ?hf3)))
    case hf1 => intro nd; cases nd <;> rfl
    case hf2 => intro nd; cases nd <;> rfl
    case hf3 => intro nd; cases nd <;> rfl

theorem updateStep_rxn_kind (opts : Opts) (s : MCTSState) (i : Nat) (c : String)
    (o : Option String) (x : String)
    (h : ∃ rd, lookupNode s.tree x = some (NodeData.rxn rd)) :
    ∃ rd, lookupNode (updateStep opts s i c o).tree x = some (NodeData.rxn rd) := by
  cases o with
  | none =>
    unfold updateStep isChemicalDoneUpdate
    dsimp only
    refine lookupNode_rxn_updateNode _ _ _ _ ?hf2 ?g1
    case hf2 => intro d; exact ⟨d, rfl⟩
    case g1 =>
      refine lookupNode_rxn_updateNode _ _ _ _ ?hf1 h
      intro d
      exact ⟨d, rfl⟩
  | some r =>
    unfold updateStep isChemicalDoneUpdate
    dsimp only
    refine updateValue_rxn_kind _ r x ?g3
    refine lookupNode_rxn_updateNode _ _ _ _ ?hk3 ?g2
    case hk3 => intro d; exact ⟨_, rfl⟩
    case g2 =>
      refine lookupNode_rxn_updateNode _ _ _ _ ?hk2 ?g1b
      case hk2 => intro d; exact ⟨d, rfl⟩
      case g1b =>
        refine lookupNode_rxn_updateNode _ _ _ _ ?hk1 h
        intro d
        exact ⟨d, rfl⟩

/-- Core computation of `_update_value`, stated against an earlier tree
`s.tree` whose edges and chemical solved flags agree with the current
tree `t`. -/
theorem updateValue_solved_eq_aux (s : MCTSState) (t : Graph) (r : String) (rd : RxnData)
    (hedges : t.edges = s.tree.edges)
    (hlk : lookupNode t r = some (NodeData.rxn rd))
    (hsolved : rd.solved = rxnSolvedCached s.tree r)
    (hchem : ∀ x, chemSolvedCached t x = chemSolvedCached s.tree x) :
    rxnSolvedCached (updateValue { s with tree := t } r).tree r
      = (rxnSolvedCached s.tree r
         || (successors s.tree r).all (fun x => chemSolvedCached s.tree x)) := by
  have hfun : (fun c => chemSolvedCached t c) = (fun x => chemSolvedCached s.tree x) :=
    funext hchem
  unfold updateValue
  dsimp only
  rw [hlk]
  dsimp only
  cases hhd : (predecessors t r).head? with
  | none =>
    dsimp only
    rw [rxnSolvedCached_updateNode_self_rxn t r _ rd hlk]
    show (rd.solved || (successors t r).all (fun c => chemSolvedCached t c)) = _
    rw [hsolved, successors_eq_of_edges hedges r, hfun]
  | some p =>
    dsimp only
    refine Eq.trans (rxnSolvedCached_updateNode_pres _ _ _ _ ?hg) ?h2
    case hg => intro nd; cases nd <;> rfl
    case h2 =>
      rw [rxnSolvedCached_updateNode_self_rxn t r _ rd hlk]
      show (rd.solved || (successors t r).all (fun c => chemSolvedCached t c)) = _
      rw [hsolved, successors_eq_of_edges hedges r, hfun]

/-- One `_update` step at a reaction recomputes the reaction's solved
flag as `old or all precursor children solved`, children read from the
state just before the step. -/
theorem updateStep_rxn_solved_eq (opts : Opts) (s : MCTSState) (i : Nat) (c r : String)
    (rd : RxnData) (hrd : lookupNode s.tree r = some (NodeData.rxn rd)) :
    rxnSolvedCached (updateStep opts s i c (some r)).tree r
      = (rxnSolvedCached s.tree r
         || (successors s.tree r).all (fun x => chemSolvedCached s.tree x)) := by
  unfold updateStep isChemicalDoneUpdate
  dsimp only
  refine updateValue_solved_eq_aux s _ r
      { rd with visitCount := rd.visitCount + 1 } ?he ?hl ?hs ?hc
  case he => rfl
  case hl =>
    by_cases hceq : r = c
    · subst hceq
      rw [lookupNode_updateNode_self, lookupNode_updateNode_self,
          lookupNode_updateNode_self, hrd]
      rfl
    · rw [lookupNode_updateNode_self, lookupNode_updateNode_ne _ _ _ _ hceq,
          lookupNode_updateNode_ne _ _ _ _ hceq, hrd]
      rfl
  case hs =>
    rw [rxnSolvedCached_eq_of, hrd]
    rfl
  case hc =>
    intro x
    refine Eq.trans (chemSolvedCached_updateNode_pres _ _ _ _ ?hf3)
      (Eq.trans (chemSolvedCached_updateNode_pres _ _ _ _ ?hf2)
        (chemSolvedCached_updateNode_pres _ _ _ _ ?hf1))
    case hf1 => intro nd; cases nd <;> rfl
    case hf2 => intro nd; cases nd <;> rfl
    case hf3 => intro nd; cases nd <;> rfl

theorem updateSteps_nil (opts : Opts) (s : MCTSState) : updateSteps opts [] s = s := rfl

theorem updateSteps_cons (opts : Opts) (e : (Nat × String) × Option String)
    (ts : List ((Nat × String) × Option String)) (s : MCTSState) :
    updateSteps opts (e :: ts) s
      = updateSteps opts ts (updateStep opts s e.1.1 e.1.2 e.2) := rfl

theorem update_eq_updateSteps (opts : Opts) (s : MCTSState)
    (chemPath rxnPath : List String) :
    update opts s chemPath rxnPath
      = updateSteps opts
          (((List.range chemPath.length).reverse.zip chemPath.reverse).zip
            (rxnPath.reverse.map some
              ++ List.replicate (chemPath.length - rxnPath.length) none))
          s := rfl

theorem updateSteps_edges (opts : Opts) (ts : List ((Nat × String) × Option String))
    (s : MCTSState) : (updateSteps opts ts s).tree.edges = s.tree.edges := by
  induction ts generalizing s with
  | nil => rfl
  | cons e ts ih =>
    rw [updateSteps_cons, ih, updateStep_edges]

theorem updateSteps_rxnSolved_frame (opts : Opts)
    (ts : List ((Nat × String) × Option String)) (s : MCTSState) (x : String)
    (h : ∀ e ∈ ts, ∀ r, e.2 = some r → x ≠ r) :
    rxnSolvedCached (updateSteps opts ts s).tree x = rxnSolvedCached s.tree x := by
  induction ts generalizing s with
  | nil => rfl
  | cons e ts ih =>
    rw [updateSteps_cons,
        ih _ (fun e2 he2 => h e2 (List.mem_cons_of_mem e he2)),
        updateStep_rxnSolved_frame _ _ _ _ _ _ (h e (List.mem_cons_self e ts))]

theorem updateSteps_chemSolved_frame (opts : Opts)
    (ts : List ((Nat × String) × Option String)) (s : MCTSState) (x : String)
    (h : ∀ e ∈ ts, ∀ r, e.2 = some r → ∀ p,
        (predecessors s.tree r).head? = some p → x ≠ p) :
    chemSolvedCached (updateSteps opts ts s).tree x = chemSolvedCached s.tree x := by
  induction ts generalizing s with
  | nil => rfl
  | cons e ts ih =>
    have hedges : (updateStep opts s e.1.1 e.1.2 e.2).tree.edges = s.tree.edges :=
      updateStep_edges opts s e.1.1 e.1.2 e.2
    have h1 : ∀ e2 ∈ ts, ∀ r, e2.2 = some r → ∀ p,
        (predecessors (updateStep opts s e.1.1 e.1.2 e.2).tree r).head? = some p → x ≠ p := by
      intro e2 he2 r hr p hp
      rw [predecessors_eq_of_edges hedges r] at hp
      exact h e2 (List.mem_cons_of_mem e he2) r hr p hp
    rw [updateSteps_cons, ih _ h1,
        updateStep_chemSolved_frame _ _ _ _ _ _ (h e (List.mem_cons_self e ts))]

theorem list_all_congr_mem (l : List String) (f g : String → Bool)
    (h : ∀ x ∈ l, f x = g x) : l.all f = l.all g := by
  induction l with
  | nil => rfl
  | cons a l ih =>
    simp only [List.all_cons]
    rw [h a (List.mem_cons_self a l), ih (fun x hx => h x (List.mem_cons_of_mem a hx))]

/-- After processing a whole triple list containing the step
`((i, c), some r)`, the reaction `r` is solved iff it was solved before
the pass or all of its precursor children are solved afterwards —
provided no other step re-touches `r` and no step after `r`'s writes the
solved flag of one of `r`'s children. -/
theorem updateSteps_target_rxn_solved (opts : Opts)
    (pre post : List ((Nat × String) × Option String)) (s : MCTSState)
    (i : Nat) (c r : String)
    (hr : ∃ rd, lookupNode s.tree r = some (NodeData.rxn rd))
    (hpre : ∀ e ∈ pre, e.2 ≠ some r)
    (hpost1 : ∀ e ∈ post, e.2 ≠ some r)
    (hpost2 : ∀ e ∈ post, ∀ q, e.2 = some q → ∀ p,
        (predecessors s.tree q).head? = some p → p ∉ successors s.tree r)
    (hpar : ∀ p, (predecessors s.tree r).head? = some p → p ∉ successors s.tree r) :
    rxnSolvedCached (updateSteps opts (pre ++ ((i, c), some r) :: post) s).tree r
      = (rxnSolvedCached s.tree r
         || (successors s.tree r).all
             (fun x => chemSolvedCached
               (updateSteps opts (pre ++ ((i, c), some r) :: post) s).tree x)) := by
  induction pre generalizing s hr hpost2 hpar with
  | nil =>
    rcases hr with ⟨rd, hrd⟩
    rw [List.nil_append, updateSteps_cons]
    dsimp only
    set s1 := updateStep opts s i c (some r) with hs1
    have hedges1 : s1.tree.edges = s.tree.edges := by
      rw [hs1]
      exact updateStep_edges opts s i c (some r)
    have hA : rxnSolvedCached (updateSteps opts post s1).tree r
        = rxnSolvedCached s1.tree r := by
      refine updateSteps_rxnSolved_frame opts post s1 r ?_
      intro e he q hq hrq
      exact hpost1 e he (by rw [hq, ← hrq])
    have hB : ∀ x ∈ successors s.tree r,
        chemSolvedCached (updateSteps opts post s1).tree x = chemSolvedCached s.tree x := by
      intro x hx
      have h1 : chemSolvedCached (updateSteps opts post s1).tree x
          = chemSolvedCached s1.tree x := by
        refine updateSteps_chemSolved_frame opts post s1 x ?_
        intro e he q hq p hp hxp
        rw [predecessors_eq_of_edges hedges1 q] at hp
        exact hpost2 e he q hq p hp (hxp ▸ hx)
      have h2 : chemSolvedCached s1.tree x = chemSolvedCached s.tree x := by
        rw [hs1]
        refine updateStep_chemSolved_frame opts s i c (some r) x ?_
        intro q hq p hp hxp
        have hqr : q = r := (Option.some.inj hq).symm
        rw [hqr] at hp
        exact hpar p hp (hxp ▸ hx)
      rw [h1, h2]
    have hstep : rxnSolvedCached s1.tree r
        = (rxnSolvedCached s.tree r
           || (successors s.tree r).all (fun x => chemSolvedCached s.tree x)) := by
      rw [hs1]
      exact updateStep_rxn_solved_eq opts s i c r rd hrd
    rw [hA, hstep]
    congr 1
    exact list_all_congr_mem _ _ _ (fun x hx => (hB x hx).symm)
  | cons e pre ih =>
    rw [List.cons_append, updateSteps_cons]
    set s1 := updateStep opts s e.1.1 e.1.2 e.2 with hs1
    have hedges1 : s1.tree.edges = s.tree.edges := by
      rw [hs1]
      exact updateStep_edges opts s e.1.1 e.1.2 e.2
    have hsucc : successors s1.tree r = successors s.tree r :=
      successors_eq_of_edges hedges1 r
    have hr1 : ∃ rd, lookupNode s1.tree r = some (NodeData.rxn rd) := by
      rw [hs1]
      exact updateStep_rxn_kind opts s e.1.1 e.1.2 e.2 r hr
    have hpost2a : ∀ e2 ∈ post, ∀ q, e2.2 = some q → ∀ p,
        (predecessors s1.tree q).head? = some p → p ∉ successors s1.tree r := by
      intro e2 he2 q hq p hp
      rw [predecessors_eq_of_edges hedges1 q] at hp
      rw [hsucc]
      exact hpost2 e2 he2 q hq p hp
    have hpara : ∀ p, (predecessors s1.tree r).head? = some p → p ∉ successors s1.tree r := by
      intro p hp
      rw [predecessors_eq_of_edges hedges1 r] at hp
      rw [hsucc]
      exact hpar p hp
    have hih := ih s1 hr1 (fun e2 he2 => hpre e2 (List.mem_cons_of_mem e he2)) hpost2a hpara
    have hfr : rxnSolvedCached s1.tree r = rxnSolvedCached s.tree r := by
      rw [hs1]
      refine updateStep_rxnSolved_frame opts s e.1.1 e.1.2 e.2 r ?_
      intro q hq hrq
      exact hpre e (List.mem_cons_self e pre) (by rw [hq, ← hrq])
    rw [hsucc, hfr] at hih
    exact hih

/-! ### C1: solved-flag propagation through a backpropagation pass -/

/-- C1 (amended): after a whole `_update` backpropagation pass, the
reaction processed by the step `((i, c), some r)` of the pass's
`zip_longest` triple list has `solved == true` iff it was flagged
solved before the pass or all of its precursor children have
`solved == true` after the pass.  The hypotheses say that no other step
of the pass processes the same reaction and that no step writes the
solved flag of one of this reaction's children through a parent link —
both guaranteed on a cycle-free rollout path.  (The original claim's
addendum that a chemical already marked solved is never reported
unsolved is refuted separately: the parent chemical's flag is
overwritten with the reaction's value, not or-ed.) -/
theorem update_rxn_solved_iff_on_path (opts : Opts) (s : MCTSState)
    (chemPath rxnPath : List String)
    (pre post : List ((Nat × String) × Option String)) (i : Nat) (c r : String)
    (hts : ((List.range chemPath.length).reverse.zip chemPath.reverse).zip
        (rxnPath.reverse.map some ++ List.replicate (chemPath.length - rxnPath.length) none)
      = pre ++ ((i, c), some r) :: post)
    (hr : ∃ rd, lookupNode s.tree r = some (NodeData.rxn rd))
    (hpre : ∀ e ∈ pre, e.2 ≠ some r)
    (hpost1 : ∀ e ∈ post, e.2 ≠ some r)
    (hpost2 : ∀ e ∈ post, ∀ q, e.2 = some q → ∀ p,
        (predecessors s.tree q).head? = some p → p ∉ successors s.tree r)
    (hpar : ∀ p, (predecessors s.tree r).head? = some p → p ∉ successors s.tree r) :
    rxnSolvedCached (update opts s chemPath rxnPath).tree r
      = (rxnSolvedCached s.tree r
         || (successors s.tree r).all
             (fun x => chemSolvedCached (update opts s chemPath rxnPath).tree x)) := by
  have heq : update opts s chemPath rxnPath
      = updateSteps opts (pre ++ ((i, c), some r) :: post) s := by
    rw [update_eq_updateSteps, hts]
  rw [heq]
  exact updateSteps_target_rxn_solved opts pre post s i c r hr hpre hpost1 hpost2 hpar

/-- C1 witness: the pass-level solved equation instantiated on the
fixture `stC1` along the rollout path `CCO → CO` through the reaction
`CO>>CCO`. -/
theorem update_rxn_solved_iff_on_path_witness :
    rxnSolvedCached (update baseOpts stC1 ["CCO", "CO"] ["CO>>CCO"]).tree "CO>>CCO"
      = (rxnSolvedCached stC1.tree "CO>>CCO"
         || (successors stC1.tree "CO>>CCO").all
             (fun x => chemSolvedCached
               (update baseOpts stC1 ["CCO", "CO"] ["CO>>CCO"]).tree x)) := by
  refine update_rxn_solved_iff_on_path baseOpts stC1 ["CCO", "CO"] ["CO>>CCO"]
      [] [((0, "CCO"), none)] 1 "CO" "CO>>CCO" (by decide) ⟨rdC1, by rfl⟩
      ?hpre ?hpost1 ?hpost2 ?hpar
  case hpre => intro e he; exact absurd he (List.not_mem_nil e)
  case hpost1 => decide
  case hpost2 =>
    intro e he q hq
    have he2 : e = ((0, "CCO"), none) := by simpa using he
    rw [he2] at hq
    exact absurd hq (by simp)
  case hpar =>
    intro p hp
    have hh : (predecessors stC1.tree "CO>>CCO").head? = some "CCO" := by decide
    rw [hh] at hp
    have hpc := Option.some.inj hp
    rw [← hpc]
    decide

end Askcos
